import Mathlib

/-!
Verification of the Graph-fraud-detection-system pipeline

Shallow embedding of the three pipeline stages of the repository:

* `src/preprocess_data.py` — the Attribute Synthesizer (device / merchant /
  location / phone / email assignment over hashed identities);
* `src/load_to_neo4j.py` — the Graph Ingestor (`load_batch`, MERGE semantics);
* `src/run_algorithms.py` — the Risk Scorer (suspicious / highRisk rules and
  the ranked CSV export).

Python's `random` module (an external PRNG) is modelled as a deterministic
entropy stream `Gen`: every primitive draw (`randint`, `random() < rate`,
`shuffle`, `sample`, `choice`) consumes naturals from the stream, exactly in
the order the source consumes the global generator.  `random.seed(s)` is
modelled by an abstract seeding function `Nat → Gen` applied to the configured
seed, so re-seeding before each attribute family is explicit.
-/

namespace Fraud

/-- Entropy stream standing for the state of Python's seeded PRNG. -/
abbrev Gen := List Nat

/-- Draw one natural from the stream (an exhausted stream yields 0). -/
def nextNat : Gen → Nat × Gen
  | [] => (0, [])
  | n :: g => (n, g)

/-- `random.randint(a, b)` — uniform on the inclusive range `[a, b]`. -/
def randint (a b : Nat) (g : Gen) : Nat × Gen :=
  (a + (nextNat g).1 % (b - a + 1), (nextNat g).2)

/-- `random.random() < rate`, with `rate` given in permille (e.g. 0.24 ↦ 240). -/
def bernoulli (permille : Nat) (g : Gen) : Bool × Gen :=
  ((nextNat g).1 % 1000 < permille, (nextNat g).2)

/-- `random.choice(xs)` — pick one element by a drawn index. -/
def pyChoice (xs : List String) (g : Gen) : String × Gen :=
  (xs.getD ((nextNat g).1 % xs.length) "", (nextNat g).2)

/-- `random.shuffle(xs)` modelled as an entropy-driven selection shuffle:
repeatedly draw an index into the remaining list and emit that element.
Structurally recursive on a fuel counter so the kernel can evaluate it; the
wrapper `pyShuffle` supplies exactly `xs.length` as fuel. -/
def pyShuffleF : Nat → List String → Gen → List String × Gen
  | _, [], g => ([], g)
  | 0, _, g => ([], g)
  | fuel + 1, xs, g =>
    let j := (nextNat g).1 % xs.length
    let rest := pyShuffleF fuel (xs.eraseIdx j) (nextNat g).2
    (xs.getD j "" :: rest.1, rest.2)

/-- `random.shuffle(xs)`. -/
def pyShuffle (xs : List String) (g : Gen) : List String × Gen :=
  pyShuffleF xs.length xs g

/-- `random.sample(xs, n)` — `n` draws without replacement (the source only
calls it with `n ≤ xs.length`; beyond that Python would raise). -/
def pySample (xs : List String) (n : Nat) (g : Gen) : List String × Gen :=
  match n with
  | 0 => ([], g)
  | n + 1 =>
    if xs = [] then ([], g)
    else
      let (r, g') := nextNat g
      let j := r % xs.length
      let (rest, g'') := pySample (xs.eraseIdx j) n g'
      (xs.getD j "" :: rest, g'')

/-- `pandas.Series.unique()` — distinct values in first-occurrence order. -/
def uniqueFirst (xs : List String) : List String :=
  xs.foldl (fun acc x => if x ∈ acc then acc else acc ++ [x]) []

-- ---------- configuration constants of `preprocess_data.py` ----------

/-- `SHARE_RATE = 0.24`, in permille. -/
def SHARE_RATE_PM : Nat := 240

/-- `MIN_GROUP = 2`. -/
def MIN_GROUP : Nat := 2

/-- `MAX_GROUP = 6`. -/
def MAX_GROUP : Nat := 6

/-- `LOCATION_COUNT = 50`. -/
def LOCATION_COUNT : Nat := 50

/-- `PHONE_SHARE_RATE = 0.30`, in permille. -/
def PHONE_SHARE_PM : Nat := 300

/-- `RANDOM_SEED = 28`. -/
def RANDOM_SEED : Nat := 28

/-- A cleaned transaction row as produced by `build_core_fields`
(the input of the attribute-assignment stages). -/
structure Row where
  transaction_id : String
  sender_id : String
  receiver_id : String
  amount : Rat
  timestamp : String
  label : Int
  deriving DecidableEq, Repr

/-- Finite map from identities to attribute values, as a Lean function
mirroring the Python dict (`none` = key absent). -/
abbrev AttrMap := String → Option String

/-- Dict update `m[k] = v`. -/
def mapSet (m : AttrMap) (k v : String) : AttrMap :=
  fun s => if s = k then some v else m s

/-- Overwrite every member of `group` with the shared value `v`
(`for s in group: m[s] = v`). -/
def setGroup (m : AttrMap) (group : List String) (v : String) : AttrMap :=
  fun s => if s ∈ group then some v else m s

-- ---------- assign_devices ----------

/-- `{s: f"D{random.randint(100000,999999)}" for s in senders}` — the
initialization of `device_for_sender`: one independent draw per sender. -/
def initDeviceValues (senders : List String) (g : Gen) : AttrMap × Gen :=
  senders.foldl
    (fun (acc : AttrMap × Gen) s =>
      (mapSet acc.1 s ("D" ++ toString (randint 100000 999999 acc.2).1),
        (randint 100000 999999 acc.2).2))
    ((fun _ => none), g)

/-- The device sharing loop of `assign_devices`, recursing over the suffix of
the shuffled sender list that the cursor `i` has not yet passed (the cursor
advances by at least one per iteration, so `rem.length` fuel suffices).
Alongside the final map it records the list of drawn groups that were given a
shared value, so that the sharing invariant can be stated. -/
def deviceShareLoopF : Nat → List String → AttrMap → Gen →
    AttrMap × List (List String)
  | _, [], m, _ => (m, [])
  | 0, _, m, _ => (m, [])
  | fuel + 1, rem, m, g =>
    let coin := bernoulli SHARE_RATE_PM g
    if coin.1 then
      let kdraw := randint MIN_GROUP MAX_GROUP coin.2
      let group := rem.take kdraw.1
      if group.length < 2 then (m, [])
      else
        let vdraw := randint 100000 999999 kdraw.2
        let res := deviceShareLoopF fuel (rem.drop kdraw.1)
          (setGroup m group ("D" ++ toString vdraw.1)) vdraw.2
        (res.1, group :: res.2)
    else
      deviceShareLoopF fuel rem.tail m coin.2

/-- The device sharing loop over the whole shuffled list. -/
def deviceShareLoop (rem : List String) (m : AttrMap) (g : Gen) :
    AttrMap × List (List String) :=
  deviceShareLoopF rem.length rem m g

/-- `assign_devices` at the level of the sender universe: initialize a unique
draw per sender, shuffle, then run the sharing loop.  Returns the final
device map and the drawn shared groups. -/
def assignDevicesMap (senders : List String) (g : Gen) :
    AttrMap × List (List String) :=
  let init := initDeviceValues senders g
  let shuffled := pyShuffle senders init.2
  deviceShareLoop shuffled.1 init.1 shuffled.2

-- ---------- assign_merchants ----------

/-- `m = int(len(receivers) * MERCHANT_RATE); m if m > 0 else 1` with
`MERCHANT_RATE = 0.16` (float truncation agrees with exact rational floor
here). -/
def merchantSampleSize (numReceivers : Nat) : Nat :=
  let m := numReceivers * 16 / 100
  if m > 0 then m else 1

/-- The merchant sample of `assign_merchants`: a without-replacement sample
from the distinct receiver universe. -/
def merchantSample (rows : List Row) (g : Gen) : List String :=
  let receivers := uniqueFirst (rows.map (·.receiver_id))
  (pySample receivers (merchantSampleSize receivers.length) g).1

/-- The `receiver_type` column: `"merchant"` iff the receiver was sampled. -/
def receiverType (merchants : List String) (r : String) : String :=
  if r ∈ merchants then "merchant" else "user"

-- ---------- assign_locations_and_contacts ----------

/-- Pad a natural to three digits (`f"L{i:03d}"`). -/
def pad3 (i : Nat) : String :=
  if i < 10 then "00" ++ toString i
  else if i < 100 then "0" ++ toString i
  else toString i

/-- `locations = [f"L{i:03d}" for i in range(1, LOCATION_COUNT+1)]`. -/
def locationPool : List String :=
  (List.range LOCATION_COUNT).map (fun i => "L" ++ pad3 (i + 1))

/-- `{s: random.choice(locations) for s in senders}`. -/
def initLocations (senders : List String) (g : Gen) : AttrMap × Gen :=
  senders.foldl
    (fun (acc : AttrMap × Gen) s =>
      (mapSet acc.1 s (pyChoice locationPool acc.2).1, (pyChoice locationPool acc.2).2))
    ((fun _ => none), g)

/-- `{s: f"P{random.randint(100000,999999)}" for s in senders}`. -/
def initPhones (senders : List String) (g : Gen) : AttrMap × Gen :=
  senders.foldl
    (fun (acc : AttrMap × Gen) s =>
      (mapSet acc.1 s ("P" ++ toString (randint 100000 999999 acc.2).1),
        (randint 100000 999999 acc.2).2))
    ((fun _ => none), g)

/-- `{s: f"user{random.randint(1000,9999)}@mail.com" for s in senders}`. -/
def initEmails (senders : List String) (g : Gen) : AttrMap × Gen :=
  senders.foldl
    (fun (acc : AttrMap × Gen) s =>
      (mapSet acc.1 s ("user" ++ toString (randint 1000 9999 acc.2).1 ++ "@mail.com"),
        (randint 1000 9999 acc.2).2))
    ((fun _ => none), g)

/-- The phone/email sharing loop of `assign_locations_and_contacts`.  Unlike
the device loop it has no `len(group) < 2` guard: every drawn group, even a
trailing group of size one, is given a shared phone and a shared email.  The
drawn groups are recorded alongside the two final maps. -/
def contactShareLoopF : Nat → List String → AttrMap → AttrMap → Gen →
    AttrMap × AttrMap × List (List String)
  | _, [], mp, me, _ => (mp, me, [])
  | 0, _, mp, me, _ => (mp, me, [])
  | fuel + 1, rem, mp, me, g =>
    let coin := bernoulli PHONE_SHARE_PM g
    if coin.1 then
      let kdraw := randint 2 5 coin.2
      let group := rem.take kdraw.1
      let pdraw := randint 100000 999999 kdraw.2
      let edraw := randint 1000 9999 pdraw.2
      let res := contactShareLoopF fuel (rem.drop kdraw.1)
        (setGroup mp group ("P" ++ toString pdraw.1))
        (setGroup me group ("fraud" ++ toString edraw.1 ++ "@mail.com")) edraw.2
      (res.1, res.2.1, group :: res.2.2)
    else
      contactShareLoopF fuel rem.tail mp me coin.2

/-- The phone/email sharing loop over the whole shuffled list. -/
def contactShareLoop (rem : List String) (mp me : AttrMap) (g : Gen) :
    AttrMap × AttrMap × List (List String) :=
  contactShareLoopF rem.length rem mp me g

/-- Result of `assign_locations_and_contacts` over the sender universe. -/
structure ContactMaps where
  loc : AttrMap
  phone : AttrMap
  email : AttrMap
  groups : List (List String)

/-- `assign_locations_and_contacts` at the level of the sender universe,
threading the generator in source order: location map, phone map, email map,
shuffle, sharing loop. -/
def assignContactsMap (senders : List String) (g : Gen) : ContactMaps :=
  let locs := initLocations senders g
  let phones := initPhones senders locs.2
  let emails := initEmails senders phones.2
  let shuffled := pyShuffle senders emails.2
  let res := contactShareLoop shuffled.1 phones.1 emails.1 shuffled.2
  ⟨locs.1, res.1, res.2.1, res.2.2⟩

-- ---------- the full synthesizer (main flow of preprocess_data.py) ----------

/-- One output row of `preprocess_data.py` (the columns of
`sampled_momo_transactions.csv`).  The mapped attribute columns are `Option`s,
mirroring `Series.map` over the assignment dicts. -/
structure OutRow where
  transaction_id : String
  sender_id : String
  receiver_id : String
  receiver_type : String
  amount : Rat
  timestamp : String
  sender_device_id : Option String
  sender_location : Option String
  sender_phone : Option String
  sender_email : Option String
  label : Int
  deriving DecidableEq, Repr

/-- The distinct sender universe of a record set
(`out["sender_id"].unique().tolist()`). -/
def senderUniverse (rows : List Row) : List String :=
  uniqueFirst (rows.map (·.sender_id))

/-- `main`'s attribute-assignment chain (`assign_devices`,
`assign_merchants`, `assign_locations_and_contacts`): each family re-seeds the
generator with the configured seed (`random.seed(RANDOM_SEED)`), modelled by
applying the seeding function `seedGen` to `RANDOM_SEED` afresh per family. -/
def runSynth (seedGen : Nat → Gen) (rows : List Row) : List OutRow :=
  let senders := senderUniverse rows
  let dev := assignDevicesMap senders (seedGen RANDOM_SEED)
  let merchants := merchantSample rows (seedGen RANDOM_SEED)
  let contacts := assignContactsMap senders (seedGen RANDOM_SEED)
  rows.map (fun r =>
    { transaction_id := r.transaction_id
      sender_id := r.sender_id
      receiver_id := r.receiver_id
      receiver_type := receiverType merchants r.receiver_id
      amount := r.amount
      timestamp := r.timestamp
      sender_device_id := dev.1 r.sender_id
      sender_location := contacts.loc r.sender_id
      sender_phone := contacts.phone r.sender_id
      sender_email := contacts.email r.sender_id
      label := r.label })

-- ==================== Graph Ingestor (load_to_neo4j.py) ====================

/-- A Neo4j node: an internal entity carrying an `id` property and a set of
labels (one Boolean flag per label used by `load_batch`).  Several nodes may
carry the same `id` — the uniqueness constraints are scoped per label. -/
structure GNode where
  id : String
  isUser : Bool
  isMerchant : Bool
  isDevice : Bool
  isLocation : Bool
  isPhone : Bool
  isEmail : Bool
  deriving DecidableEq, Repr, Inhabited

/-- Relationship types other than `TRANSACTS_WITH`. -/
inductive RelType
  | usesDevice | locatedIn | hasPhone | hasEmail
  deriving DecidableEq, Repr

/-- A plain relationship; endpoints are node indices into `Graph.nodes`. -/
structure GEdge where
  src : Nat
  rel : RelType
  dst : Nat
  deriving DecidableEq, Repr

/-- A `TRANSACTS_WITH` relationship keyed by `txid`, carrying the
create-only properties `amount`, `timestamp`, `label`. -/
structure TxEdge where
  src : Nat
  dst : Nat
  txid : String
  amount : Rat
  timestamp : String
  label : Int
  deriving DecidableEq, Repr

/-- Graph store state.  Nodes are append-only (MERGE never deletes), so a
node index is a stable identity. -/
structure Graph where
  nodes : List GNode
  rels : List GEdge
  txs : List TxEdge
  deriving DecidableEq, Repr

/-- The empty store. -/
def Graph.empty : Graph := ⟨[], [], []⟩

/-- Pattern `(s:User {id: i})`. -/
def userPat (i : String) (n : GNode) : Bool := n.isUser && n.id == i

/-- Pattern `(t {id: i})` — label-free, matches on `id` alone. -/
def barePat (i : String) (n : GNode) : Bool := n.id == i

/-- Pattern `(d:Device {id: i})`. -/
def devicePat (i : String) (n : GNode) : Bool := n.isDevice && n.id == i

/-- Pattern `(l:Location {id: i})`. -/
def locationPat (i : String) (n : GNode) : Bool := n.isLocation && n.id == i

/-- Pattern `(p:Phone {id: i})`. -/
def phonePat (i : String) (n : GNode) : Bool := n.isPhone && n.id == i

/-- Pattern `(e:Email {id: i})`. -/
def emailPat (i : String) (n : GNode) : Bool := n.isEmail && n.id == i

/-- A fresh `:User {id}` node (also the `ON CREATE SET t:User` default). -/
def mkUser (i : String) : GNode := ⟨i, true, false, false, false, false, false⟩

/-- A fresh `:Device {id}` node. -/
def mkDevice (i : String) : GNode := ⟨i, false, false, true, false, false, false⟩

/-- A fresh `:Location {id}` node. -/
def mkLocation (i : String) : GNode := ⟨i, false, false, false, true, false, false⟩

/-- A fresh `:Phone {id}` node. -/
def mkPhone (i : String) : GNode := ⟨i, false, false, false, false, true, false⟩

/-- A fresh `:Email {id}` node. -/
def mkEmail (i : String) : GNode := ⟨i, false, false, false, false, false, true⟩

/-- `MERGE` on a node pattern: bind the first matching node, else append a
freshly created one.  Returns the bound node's index and the new state. -/
def mergeNode (G : Graph) (pat : GNode → Bool) (create : GNode) : Nat × Graph :=
  match G.nodes.findIdx? pat with
  | some j => (j, G)
  | none => (G.nodes.length, { G with nodes := G.nodes ++ [create] })

/-- In-place label update of the node at index `j` (out-of-range is a no-op,
as `List.set` is). -/
def modifyNode (G : Graph) (j : Nat) (f : GNode → GNode) : Graph :=
  { G with nodes := G.nodes.set j (f (G.nodes.getD j default)) }

/-- `SET t:Merchant REMOVE t:User` — the one-way relabel. -/
def relabelMerchant (n : GNode) : GNode :=
  { n with isMerchant := true, isUser := false }

/-- `MERGE (s)-[:REL]->(d)` — create the relationship if absent. -/
def mergeRel (G : Graph) (s : Nat) (rel : RelType) (d : Nat) : Graph :=
  if ⟨s, rel, d⟩ ∈ G.rels then G else { G with rels := G.rels ++ [⟨s, rel, d⟩] }

/-- `MERGE (s)-[x:TRANSACTS_WITH {txid}]->(t) ON CREATE SET …` — keyed by
`(s, t, txid)`; the properties are set only at creation (no `ON MATCH`). -/
def mergeTx (G : Graph) (s t : Nat) (txid : String) (amount : Rat)
    (timestamp : String) (label : Int) : Graph :=
  if G.txs.any (fun e => e.src == s && e.dst == t && e.txid == txid) then G
  else { G with txs := G.txs ++ [⟨s, t, txid, amount, timestamp, label⟩] }

/-- One row of the synthesized CSV as consumed by `load_batch`. -/
structure LoadRow where
  transaction_id : String
  sender_id : String
  receiver_id : String
  receiver_type : String
  amount : Rat
  timestamp : String
  sender_device_id : String
  sender_location : String
  sender_phone : String
  sender_email : String
  label : Int
  deriving DecidableEq, Repr

/-- One resource clause pair of `load_batch`'s query: `MERGE` the resource
node by pattern, then `MERGE` the relationship from the bound sender `s`. -/
def resourceStep (G : Graph) (s : Nat) (pat : GNode → Bool) (c : GNode)
    (rel : RelType) : Graph :=
  let m := mergeNode G pat c
  mergeRel m.2 s rel m.1

/-- The resource half of `load_batch`'s per-row Cypher clauses: the
Device/Location/Phone/Email merges, their relationships from the bound
sender node `s`, and the keyed `TRANSACTS_WITH` merge to the bound receiver
node `t`. -/
def processResources (G : Graph) (s t : Nat) (r : LoadRow) : Graph :=
  let G3 := resourceStep G s (devicePat r.sender_device_id)
    (mkDevice r.sender_device_id) .usesDevice
  let G4 := resourceStep G3 s (locationPat r.sender_location)
    (mkLocation r.sender_location) .locatedIn
  let G5 := resourceStep G4 s (phonePat r.sender_phone)
    (mkPhone r.sender_phone) .hasPhone
  let G6 := resourceStep G5 s (emailPat r.sender_email)
    (mkEmail r.sender_email) .hasEmail
  mergeTx G6 s t r.transaction_id r.amount r.timestamp r.label

/-- The per-row body of `load_batch`'s Cypher query, in clause order: sender
merge, bare receiver merge with `ON CREATE SET t:User`, the conditional
relabel, then the resource half. -/
def processRecord (G : Graph) (r : LoadRow) : Graph :=
  let sm := mergeNode G (userPat r.sender_id) (mkUser r.sender_id)
  let tm := mergeNode sm.2 (barePat r.receiver_id) (mkUser r.receiver_id)
  let G2 := if r.receiver_type = "merchant"
            then modifyNode tm.2 tm.1 relabelMerchant else tm.2
  processResources G2 sm.1 tm.1 r

/-- `load_batch` over a list of rows (`UNWIND $rows AS r`). -/
def loadBatch (G : Graph) (rows : List LoadRow) : Graph :=
  rows.foldl processRecord G

/-- Every lookup `load_batch` performs for the record already resolves in
`G`, with the conditional relabel already applied; re-processing such a
record cannot change the store. -/
def ingested (G : Graph) (r : LoadRow) : Prop :=
  ∃ s t d l p e : Nat,
    G.nodes.findIdx? (userPat r.sender_id) = some s
    ∧ G.nodes.findIdx? (barePat r.receiver_id) = some t
    ∧ (r.receiver_type = "merchant" →
        (G.nodes.getD t default).isMerchant = true
        ∧ (G.nodes.getD t default).isUser = false)
    ∧ G.nodes.findIdx? (devicePat r.sender_device_id) = some d
    ∧ (⟨s, .usesDevice, d⟩ : GEdge) ∈ G.rels
    ∧ G.nodes.findIdx? (locationPat r.sender_location) = some l
    ∧ (⟨s, .locatedIn, l⟩ : GEdge) ∈ G.rels
    ∧ G.nodes.findIdx? (phonePat r.sender_phone) = some p
    ∧ (⟨s, .hasPhone, p⟩ : GEdge) ∈ G.rels
    ∧ G.nodes.findIdx? (emailPat r.sender_email) = some e
    ∧ (⟨s, .hasEmail, e⟩ : GEdge) ∈ G.rels
    ∧ G.txs.any (fun x =>
        x.src == s && x.dst == t && x.txid == r.transaction_id) = true

/-- No identity occurs in the batch both as a sender and as the receiver of
a merchant-typed record (the condition under which re-ingestion is a
no-op: the relabel then never strips the `User` label off any node the
sender upserts bind to). -/
def senderMerchantDisjoint (rows : List LoadRow) : Prop :=
  ∀ r ∈ rows, ∀ r' ∈ rows,
    r'.receiver_type = "merchant" → r.sender_id ≠ r'.receiver_id

-- ==================== Risk Scorer (run_algorithms.py) ====================

/-- A `User` node as seen by the rule/export queries: the stored numeric
properties are optional, since a property a query never set is `null`. -/
structure UserProps where
  id : String
  pr : Option Rat
  coUsers : Option Int
  triangles : Option Int
  degree : Option Int
  community : Option Int
  suspicious : Option Bool
  highRisk : Option Bool
  deriving DecidableEq, Repr

/-- Cypher `x > c` on a possibly-null property (`null > c` is not true). -/
def optGT (x : Option Rat) (c : Rat) : Bool :=
  match x with
  | some v => decide (c < v)
  | none => false

/-- Cypher `coalesce(x, 0)`. -/
def coalesce0 (x : Option Int) : Int := x.getD 0

/-- The `SET u.suspicious = …` query, per user, given the population
statistics `meanPR`/`sdPR` computed by the aggregate pass of the same query. -/
def suspiciousVal (meanPR sdPR : Rat) (u : UserProps) : Bool :=
  optGT u.pr (meanPR + 3 * sdPR)
    || coalesce0 u.coUsers ≥ 2
    || coalesce0 u.triangles ≥ 2

/-- Write the computed flag onto the node. -/
def setSuspicious (meanPR sdPR : Rat) (u : UserProps) : UserProps :=
  { u with suspicious := some (suspiciousVal meanPR sdPR u) }

/-- The `SET u.highRisk = true` query, per user: the flag is written only
where the `WHERE` clause holds (there is no `ELSE`, so it stays `null`
otherwise). -/
def setHighRisk (meanPR sdPR : Rat) (u : UserProps) : UserProps :=
  if u.suspicious = some true
      ∧ (coalesce0 u.coUsers ≥ 4 ∨ optGT u.pr (meanPR + 2 * sdPR) = true)
  then { u with highRisk := some true }
  else u

/-- Both rule queries over the whole user population, in source order. -/
def applyRules (meanPR sdPR : Rat) (pop : List UserProps) : List UserProps :=
  (pop.map (setSuspicious meanPR sdPR)).map (setHighRisk meanPR sdPR)

-- ---------- the export query ----------

/-- One row of `risk_users.csv` (the `RETURN` projection of the export
query, with its `coalesce` defaults applied). -/
structure ExportRow where
  user : String
  highRisk : Bool
  coUsers : Int
  pr : Rat
  degree : Int
  triangles : Int
  community : Int
  deriving DecidableEq, Repr

/-- Cypher `round(x, 6)`. -/
def roundTo6 (x : Rat) : Rat := ((round (x * 1000000) : Int) : Rat) / 1000000

/-- The `WHERE u.suspicious = true OR u.highRisk = true` filter
(`null` comparisons are not true). -/
def flagged (u : UserProps) : Bool :=
  u.suspicious == some true || u.highRisk == some true

/-- The `RETURN` projection with its `coalesce` defaults
(missing numerics default to 0, missing community to the -1 sentinel). -/
def mkExportRow (u : UserProps) : ExportRow :=
  { user := u.id
    highRisk := u.highRisk.getD false
    coUsers := coalesce0 u.coUsers
    pr := roundTo6 (u.pr.getD 0)
    degree := coalesce0 u.degree
    triangles := coalesce0 u.triangles
    community := u.community.getD (-1) }

/-- `ORDER BY highRisk DESC, coUsers DESC, pr DESC` as a predicate:
`exportOrder a b` says `a` may be listed at or before `b`.  Booleans order
with `false < true`, so `DESC` puts `true` first. -/
def exportOrder (a b : ExportRow) : Prop :=
  a.highRisk = true ∧ b.highRisk = false
  ∨ a.highRisk = b.highRisk
    ∧ (b.coUsers < a.coUsers ∨ a.coUsers = b.coUsers ∧ b.pr ≤ a.pr)

instance : DecidableRel exportOrder := fun a b => by
  unfold exportOrder; infer_instance

/-- `LIMIT 1000`. -/
def EXPORT_LIMIT : Nat := 1000

/-- The export query: filter the flagged users, project, order by the sort
key, cap at `LIMIT 1000`. -/
def exportRows (pop : List UserProps) : List ExportRow :=
  (List.insertionSort exportOrder ((pop.filter flagged).map mkExportRow)).take
    EXPORT_LIMIT

-- ==================== Theorems ====================

-- ---------- shared helper lemmas ----------

theorem setHighRisk_suspicious (meanPR sdPR : Rat) (u : UserProps) :
    (setHighRisk meanPR sdPR u).suspicious = u.suspicious := by
  unfold setHighRisk; split <;> rfl

theorem setSuspicious_suspicious (meanPR sdPR : Rat) (u : UserProps) :
    (setSuspicious meanPR sdPR u).suspicious = some (suspiciousVal meanPR sdPR u) := rfl

theorem setSuspicious_pr (meanPR sdPR : Rat) (u : UserProps) :
    (setSuspicious meanPR sdPR u).pr = u.pr := rfl

theorem setSuspicious_coUsers (meanPR sdPR : Rat) (u : UserProps) :
    (setSuspicious meanPR sdPR u).coUsers = u.coUsers := rfl

theorem setSuspicious_highRisk (meanPR sdPR : Rat) (u : UserProps) :
    (setSuspicious meanPR sdPR u).highRisk = u.highRisk := rfl

theorem optGT_some (p c : Rat) : optGT (some p) c = decide (c < p) := rfl

/-- On a user whose `highRisk` property is still unset, the second rule query
sets it to `true` exactly where its `WHERE` clause holds. -/
theorem setHighRisk_highRisk (meanPR sdPR : Rat) (u : UserProps)
    (hfresh : u.highRisk = none) :
    ((setHighRisk meanPR sdPR u).highRisk = some true)
    ↔ (u.suspicious = some true
        ∧ (coalesce0 u.coUsers ≥ 4 ∨ optGT u.pr (meanPR + 2 * sdPR) = true)) := by
  unfold setHighRisk
  split
  · rename_i h
    exact iff_of_true rfl h
  · rename_i h
    rw [hfresh]
    exact iff_of_false (by simp) h

/-- Claim C3. For every user, after the two rule queries of `run_algorithms.py`:
`suspicious` is true iff PageRank exceeds `meanPR + 3·sdPR` or the coalesced
co-user count is ≥ 2 or the coalesced triangle count is ≥ 2; and `highRisk`
is set iff `suspicious` holds and (co-users ≥ 4 or PageRank exceeds
`meanPR + 2·sdPR`).  `meanPR`/`sdPR` are the population statistics computed
by the queries' aggregate pass (arbitrary rationals here, since the claim's
equivalence holds for any such pair); missing counts are coalesced to 0; the
user starts the run with `highRisk` unset, and carries some PageRank value. -/
theorem risk_rules_iff (meanPR sdPR : Rat) (u : UserProps) (p : Rat)
    (hpr : u.pr = some p) (hfresh : u.highRisk = none) :
    ((setHighRisk meanPR sdPR (setSuspicious meanPR sdPR u)).suspicious = some true
      ↔ (meanPR + 3 * sdPR < p ∨ 2 ≤ coalesce0 u.coUsers ∨ 2 ≤ coalesce0 u.triangles))
    ∧ ((setHighRisk meanPR sdPR (setSuspicious meanPR sdPR u)).highRisk = some true
      ↔ ((setHighRisk meanPR sdPR (setSuspicious meanPR sdPR u)).suspicious = some true
          ∧ (4 ≤ coalesce0 u.coUsers ∨ meanPR + 2 * sdPR < p))) := by
  have hs : (setHighRisk meanPR sdPR (setSuspicious meanPR sdPR u)).suspicious
      = some (suspiciousVal meanPR sdPR u) := by
    rw [setHighRisk_suspicious, setSuspicious_suspicious]
  constructor
  · rw [hs]
    simp [suspiciousVal, hpr, optGT_some, decide_eq_true_eq, or_assoc]
  · rw [setHighRisk_highRisk meanPR sdPR _
      (by rw [setSuspicious_highRisk]; exact hfresh)]
    rw [setHighRisk_suspicious, setSuspicious_coUsers, setSuspicious_pr, hpr,
      optGT_some]
    simp [decide_eq_true_eq]

-- ---------- graph store helper lemmas ----------

theorem mergeNode_txs (G : Graph) (p : GNode → Bool) (c : GNode) :
    (mergeNode G p c).2.txs = G.txs := by
  unfold mergeNode; split <;> rfl

theorem mergeNode_rels (G : Graph) (p : GNode → Bool) (c : GNode) :
    (mergeNode G p c).2.rels = G.rels := by
  unfold mergeNode; split <;> rfl

theorem modifyNode_txs (G : Graph) (j : Nat) (f : GNode → GNode) :
    (modifyNode G j f).txs = G.txs := rfl

theorem modifyNode_rels (G : Graph) (j : Nat) (f : GNode → GNode) :
    (modifyNode G j f).rels = G.rels := rfl

theorem mergeRel_txs (G : Graph) (s : Nat) (rel : RelType) (d : Nat) :
    (mergeRel G s rel d).txs = G.txs := by
  unfold mergeRel; split <;> rfl

theorem mergeRel_nodes (G : Graph) (s : Nat) (rel : RelType) (d : Nat) :
    (mergeRel G s rel d).nodes = G.nodes := by
  unfold mergeRel; split <;> rfl

theorem mergeTx_nodes (G : Graph) (s t : Nat) (txid : String) (a : Rat)
    (ts : String) (lb : Int) : (mergeTx G s t txid a ts lb).nodes = G.nodes := by
  unfold mergeTx; split <;> rfl

theorem mergeTx_mem (G : Graph) (s t : Nat) (txid : String) (a : Rat)
    (ts : String) (lb : Int) (e : TxEdge) (he : e ∈ G.txs) :
    e ∈ (mergeTx G s t txid a ts lb).txs := by
  unfold mergeTx; split
  · exact he
  · exact List.mem_append_left _ he

theorem ite_txs (c : Prop) [Decidable c] (a b : Graph) :
    (if c then a else b).txs = if c then a.txs else b.txs :=
  apply_ite Graph.txs c a b

theorem ite_nodes (c : Prop) [Decidable c] (a b : Graph) :
    (if c then a else b).nodes = if c then a.nodes else b.nodes :=
  apply_ite Graph.nodes c a b

/-- `mergeNode` preserves the node stored at every existing index
(nodes are only appended). -/
theorem mergeNode_getD (G : Graph) (p : GNode → Bool) (c : GNode) (j : Nat)
    (hj : j < G.nodes.length) :
    (mergeNode G p c).2.nodes.getD j default = G.nodes.getD j default := by
  unfold mergeNode; split
  · rfl
  · exact List.getD_append _ _ _ _ hj

theorem mergeNode_length_le (G : Graph) (p : GNode → Bool) (c : GNode) :
    G.nodes.length ≤ (mergeNode G p c).2.nodes.length := by
  unfold mergeNode; split
  · exact le_refl _
  · simp

/-- Overwriting any position of a node list with a relabeled node keeps every
position that is already `Merchant`-and-not-`User` in that state. -/
theorem getD_set_relabel (ns : List GNode) (t j : Nat) (v : GNode)
    (hm : (ns.getD j default).isMerchant = true)
    (hu : (ns.getD j default).isUser = false) :
    (((ns.set t (relabelMerchant v)).getD j default).isMerchant = true)
    ∧ (((ns.set t (relabelMerchant v)).getD j default).isUser = false) := by
  by_cases hjl : j < ns.length
  · by_cases hij : t = j
    · subst hij
      rw [List.getD_eq_getD_get?, List.get?_eq_getElem?,
        List.getElem?_set_eq_of_lt _ hjl]
      exact ⟨rfl, rfl⟩
    · rw [List.getD_eq_getD_get?, List.get?_eq_getElem?, List.getElem?_set_ne hij,
        ← List.get?_eq_getElem?, ← List.getD_eq_getD_get?]
      exact ⟨hm, hu⟩
  · rw [List.getD_eq_default _ _ (by rw [List.length_set]; omega)]
    rw [List.getD_eq_default _ _ (by omega)] at hm hu
    exact ⟨hm, hu⟩

/-- `modifyNode` with the merchant relabel keeps every node that is already
`Merchant`-and-not-`User` in that state. -/
theorem modifyNode_relabel_getD (G : Graph) (t j : Nat)
    (hm : (G.nodes.getD j default).isMerchant = true)
    (hu : (G.nodes.getD j default).isUser = false) :
    ((modifyNode G t relabelMerchant).nodes.getD j default).isMerchant = true
    ∧ ((modifyNode G t relabelMerchant).nodes.getD j default).isUser = false :=
  getD_set_relabel G.nodes t j _ hm hu

theorem modifyNode_length (G : Graph) (j : Nat) (f : GNode → GNode) :
    (modifyNode G j f).nodes.length = G.nodes.length := List.length_set _ _ _

/-- Claim C5. Re-ingesting a record whose `transaction_id` keys an already stored
`TRANSACTS_WITH` edge leaves that edge — its `amount`, `timestamp` and
`label` properties included — in the graph unchanged, even when the incoming
record carries different values: the `ON CREATE SET` clause writes only at
first creation. -/
theorem tx_edge_create_only (G : Graph) (r : LoadRow) (e : TxEdge)
    (he : e ∈ G.txs) (hkey : e.txid = r.transaction_id)
    (hdiff : e.amount ≠ r.amount ∨ e.timestamp ≠ r.timestamp ∨ e.label ≠ r.label) :
    e ∈ (processRecord G r).txs := by
  unfold processRecord processResources resourceStep
  apply mergeTx_mem
  simp only [mergeRel_txs, mergeNode_txs, ite_txs, modifyNode_txs, ite_self]
  exact he

/-- Witness for `tx_edge_create_only`: a stored edge for `T1` survives a
re-ingest of `T1` with a different amount. -/
theorem tx_edge_create_only_witness :
    (⟨0, 1, "T1", 5, "t0", 1⟩ : TxEdge) ∈ (processRecord
      ⟨[mkUser "A", mkUser "B"], [], [⟨0, 1, "T1", 5, "t0", 1⟩]⟩
      ⟨"T1", "A", "B", "user", 99, "t9", "D1", "L1", "P1", "E1", 0⟩).txs := by
  exact tx_edge_create_only _ _ _ (by decide) (by decide)
    (by left; decide)


-- ---------- merchant-lock preservation (C6) ----------

/-- The node at index `j` exists, carries the `Merchant` label and not the
`User` label. -/
def merchantLocked (G : Graph) (j : Nat) : Prop :=
  j < G.nodes.length
  ∧ (G.nodes.getD j default).isMerchant = true
  ∧ (G.nodes.getD j default).isUser = false

theorem locked_mergeNode (G : Graph) (p : GNode → Bool) (c : GNode) (j : Nat)
    (h : merchantLocked G j) : merchantLocked (mergeNode G p c).2 j := by
  obtain ⟨hj, hm, hu⟩ := h
  refine ⟨by have := mergeNode_length_le G p c; omega, ?_, ?_⟩
  · rw [mergeNode_getD G p c j hj]; exact hm
  · rw [mergeNode_getD G p c j hj]; exact hu

theorem locked_modifyNode (G : Graph) (t j : Nat) (h : merchantLocked G j) :
    merchantLocked (modifyNode G t relabelMerchant) j := by
  obtain ⟨hj, hm, hu⟩ := h
  have hpair := modifyNode_relabel_getD G t j hm hu
  exact ⟨by rw [modifyNode_length]; omega, hpair.1, hpair.2⟩

theorem locked_ite (c : Prop) [Decidable c] (a b : Graph) (j : Nat)
    (ha : c → merchantLocked a j) (hb : ¬c → merchantLocked b j) :
    merchantLocked (if c then a else b) j := by
  split
  · exact ha ‹c›
  · exact hb ‹¬c›

theorem locked_mergeRel (G : Graph) (s : Nat) (rel : RelType) (d : Nat) (j : Nat)
    (h : merchantLocked G j) : merchantLocked (mergeRel G s rel d) j := by
  unfold merchantLocked
  rw [mergeRel_nodes]
  exact h

theorem locked_mergeTx (G : Graph) (s t : Nat) (txid : String) (a : Rat)
    (ts : String) (lb : Int) (j : Nat) (h : merchantLocked G j) :
    merchantLocked (mergeTx G s t txid a ts lb) j := by
  unfold merchantLocked
  rw [mergeTx_nodes]
  exact h

/-- The merchant lock survives a whole ingested record. -/
theorem locked_processRecord (G : Graph) (r : LoadRow) (j : Nat)
    (h : merchantLocked G j) : merchantLocked (processRecord G r) j := by
  unfold processRecord
  apply locked_mergeTx
  apply locked_mergeRel
  apply locked_mergeNode
  apply locked_mergeRel
  apply locked_mergeNode
  apply locked_mergeRel
  apply locked_mergeNode
  apply locked_mergeRel
  apply locked_mergeNode
  apply locked_ite
  · intro _
    apply locked_modifyNode
    apply locked_mergeNode
    apply locked_mergeNode
    exact h
  · intro _
    apply locked_mergeNode
    apply locked_mergeNode
    exact h

/-- Claim C6. Once a node has been relabeled `Merchant` (it carries `Merchant` and
no longer `User`), ingesting any further record — whatever its
`receiver_type`, and whether the node's id occurs there as sender or as
receiver — never restores the `User` label on that node: the role flip is
permanent. -/
theorem merchant_label_permanent (G : Graph) (r : LoadRow) (j : Nat)
    (hj : j < G.nodes.length)
    (hm : (G.nodes.getD j default).isMerchant = true)
    (hu : (G.nodes.getD j default).isUser = false) :
    ((processRecord G r).nodes.getD j default).isMerchant = true
    ∧ ((processRecord G r).nodes.getD j default).isUser = false := by
  have h := locked_processRecord G r j ⟨hj, hm, hu⟩
  exact ⟨h.2.1, h.2.2⟩

/-- Witness for `merchant_label_permanent`: a relabeled `X` node survives a
record that uses `X` both as sender and as plain-user receiver. -/
theorem merchant_label_permanent_witness :
    ((processRecord ⟨[⟨"X", false, true, false, false, false, false⟩], [], []⟩
      ⟨"T2", "X", "X", "user", 3, "t1", "D1", "L1", "P1", "E1", 0⟩).nodes.getD 0
        default).isUser = false := by
  exact (merchant_label_permanent
    ⟨[⟨"X", false, true, false, false, false, false⟩], [], []⟩
    ⟨"T2", "X", "X", "user", 3, "t1", "D1", "L1", "P1", "E1", 0⟩ 0
    (by decide) (by decide) (by decide)).2

-- ---------- attribute-initialization lemmas (C9) ----------

/-- A dict comprehension `{s: value(drawn) for s in senders}` leaves keys
outside `senders` untouched. -/
theorem initFold_not_mem (F : Gen → String) (Gs : Gen → Gen)
    (senders : List String) (acc : AttrMap × Gen) (s : String)
    (hs : s ∉ senders) :
    (senders.foldl (fun acc x => (mapSet acc.1 x (F acc.2), Gs acc.2)) acc).1 s
      = acc.1 s := by
  induction senders generalizing acc with
  | nil => rfl
  | cons a tl ih =>
    simp only [List.foldl_cons]
    rw [ih _ (fun h => hs (List.mem_cons_of_mem _ h))]
    show (if s = a then some (F acc.2) else acc.1 s) = acc.1 s
    rw [if_neg (fun h : s = a => hs (by rw [h]; exact List.mem_cons_self a tl))]

/-- A dict comprehension `{s: value(drawn) for s in senders}` assigns every
listed key a value of the drawn shape. -/
theorem initFold_mem (P : String → Prop) (F : Gen → String) (Gs : Gen → Gen)
    (hF : ∀ g, P (F g)) (senders : List String) (acc : AttrMap × Gen)
    (s : String) (hs : s ∈ senders) :
    ∃ v, (senders.foldl (fun acc x => (mapSet acc.1 x (F acc.2), Gs acc.2)) acc).1 s
      = some v ∧ P v := by
  induction senders generalizing acc with
  | nil => cases hs
  | cons a tl ih =>
    simp only [List.foldl_cons]
    by_cases htl : s ∈ tl
    · exact ih _ htl
    · have hsa : s = a := by
        rcases List.mem_cons.mp hs with h | h
        · exact h
        · exact absurd h htl
      subst hsa
      rw [initFold_not_mem F Gs tl _ s htl]
      exact ⟨F acc.2, by simp [mapSet], hF acc.2⟩

/-- Claim C9, counterexample. The initialization step does not make initial values
pairwise distinct: with two senders and an entropy stream that repeats, both
senders draw the same initial device value `D100005`. -/
theorem init_values_not_pairwise_distinct :
    ¬ (∀ s1 ∈ ["a", "b"], ∀ s2 ∈ ["a", "b"], s1 ≠ s2 →
        (initDeviceValues ["a", "b"] [5, 5]).1 s1
          ≠ (initDeviceValues ["a", "b"] [5, 5]).1 s2) := by
  intro h
  exact h "a" (by decide) "b" (by decide) (by decide) (by decide)

/-- Claim C9, amended. For every run and every attribute family, the
initialization step assigns every identity in the relevant universe its own
independently drawn attribute value of the family's shape (a fresh draw per
identity in range); pairwise distinctness of these draws is *not* guaranteed —
draws can collide, as no uniqueness check is performed. -/
theorem init_values_assign_each (senders : List String) (g1 g2 g3 g4 : Gen)
    (s : String) (hs : s ∈ senders) :
    (∃ n, 100000 ≤ n ∧ n ≤ 999999
      ∧ (initDeviceValues senders g1).1 s = some ("D" ++ toString n))
    ∧ (∃ n, 100000 ≤ n ∧ n ≤ 999999
      ∧ (initPhones senders g2).1 s = some ("P" ++ toString n))
    ∧ (∃ n, 1000 ≤ n ∧ n ≤ 9999
      ∧ (initEmails senders g3).1 s = some ("user" ++ toString n ++ "@mail.com"))
    ∧ (∃ v, (initLocations senders g4).1 s = some v ∧ v ∈ locationPool) := by
  refine ⟨?_, ?_, ?_, ?_⟩
  · have hP : ∀ g : Gen, ∃ n, 100000 ≤ n ∧ n ≤ 999999
        ∧ "D" ++ toString (randint 100000 999999 g).1 = "D" ++ toString n := by
      intro g
      refine ⟨(randint 100000 999999 g).1, ?_, ?_, rfl⟩
      · simp [randint]
      · have hlt := @Nat.mod_lt (nextNat g).1 (999999 - 100000 + 1) (by norm_num)
        simp only [randint]
        omega
    obtain ⟨v, hv, n, hn1, hn2, hvn⟩ := initFold_mem
      (fun v => ∃ n, 100000 ≤ n ∧ n ≤ 999999 ∧ v = "D" ++ toString n)
      (fun g => "D" ++ toString (randint 100000 999999 g).1)
      (fun g => (randint 100000 999999 g).2) hP senders ((fun _ => none), g1) s hs
    exact ⟨n, hn1, hn2, by rw [← hvn]; exact hv⟩
  · have hP : ∀ g : Gen, ∃ n, 100000 ≤ n ∧ n ≤ 999999
        ∧ "P" ++ toString (randint 100000 999999 g).1 = "P" ++ toString n := by
      intro g
      refine ⟨(randint 100000 999999 g).1, ?_, ?_, rfl⟩
      · simp [randint]
      · have hlt := @Nat.mod_lt (nextNat g).1 (999999 - 100000 + 1) (by norm_num)
        simp only [randint]
        omega
    obtain ⟨v, hv, n, hn1, hn2, hvn⟩ := initFold_mem
      (fun v => ∃ n, 100000 ≤ n ∧ n ≤ 999999 ∧ v = "P" ++ toString n)
      (fun g => "P" ++ toString (randint 100000 999999 g).1)
      (fun g => (randint 100000 999999 g).2) hP senders ((fun _ => none), g2) s hs
    exact ⟨n, hn1, hn2, by rw [← hvn]; exact hv⟩
  · have hP : ∀ g : Gen, ∃ n, 1000 ≤ n ∧ n ≤ 9999
        ∧ "user" ++ toString (randint 1000 9999 g).1 ++ "@mail.com"
          = "user" ++ toString n ++ "@mail.com" := by
      intro g
      refine ⟨(randint 1000 9999 g).1, ?_, ?_, rfl⟩
      · simp [randint]
      · have hlt := @Nat.mod_lt (nextNat g).1 (9999 - 1000 + 1) (by norm_num)
        simp only [randint]
        omega
    obtain ⟨v, hv, n, hn1, hn2, hvn⟩ := initFold_mem
      (fun v => ∃ n, 1000 ≤ n ∧ n ≤ 9999
        ∧ v = "user" ++ toString n ++ "@mail.com")
      (fun g => "user" ++ toString (randint 1000 9999 g).1 ++ "@mail.com")
      (fun g => (randint 1000 9999 g).2) hP senders ((fun _ => none), g3) s hs
    exact ⟨n, hn1, hn2, by rw [← hvn]; exact hv⟩
  · have hP : ∀ g : Gen, (pyChoice locationPool g).1 ∈ locationPool := by
      intro g
      have hlen : 0 < locationPool.length := by decide
      have hlt := @Nat.mod_lt (nextNat g).1 locationPool.length hlen
      simp only [pyChoice]
      rw [List.getD_eq_getElem _ _ hlt]
      exact List.getElem_mem hlt
    obtain ⟨v, hv, hmem⟩ := initFold_mem (fun v => v ∈ locationPool)
      (fun g => (pyChoice locationPool g).1)
      (fun g => (pyChoice locationPool g).2) hP senders ((fun _ => none), g4) s hs
    exact ⟨v, hv, hmem⟩

/-- Witness for `init_values_assign_each` at a concrete run. -/
theorem init_values_assign_each_witness :
    ∃ n, 100000 ≤ n ∧ n ≤ 999999
      ∧ (initDeviceValues ["a", "b"] [5, 5]).1 "a" = some ("D" ++ toString n) :=
  (init_values_assign_each ["a", "b"] [5, 5] [] [] [] "a" (by decide)).1

-- ---------- sampling lemmas (C2) ----------

/-- Picking position `j` and the remainder is a permutation of the list. -/
theorem getD_cons_eraseIdx_perm (xs : List String) (j : Nat)
    (hj : j < xs.length) : (xs.getD j "" :: xs.eraseIdx j).Perm xs := by
  have h1 : xs.Perm (xs[j] :: xs.erase xs[j]) :=
    List.perm_cons_erase (List.getElem_mem hj)
  have h2 : (xs.erase xs[j]).Perm (xs.eraseIdx j) := List.erase_getElem hj
  rw [List.getD_eq_getElem _ _ hj]
  exact (h1.trans (h2.cons _)).symm

/-- A without-replacement sample of requested size `n ≤ |xs|` has size `n`. -/
theorem pySample_length (xs : List String) (n : Nat) (g : Gen)
    (h : n ≤ xs.length) : (pySample xs n g).1.length = n := by
  induction n generalizing xs g with
  | zero => rfl
  | succ n ih =>
    have hne : xs ≠ [] := by
      intro he; subst he; simp at h
    have hxl : 0 < xs.length := List.length_pos.mpr hne
    have hjlt : (nextNat g).1 % xs.length < xs.length := Nat.mod_lt _ hxl
    have hrec : n ≤ (xs.eraseIdx ((nextNat g).1 % xs.length)).length := by
      rw [List.length_eraseIdx, if_pos hjlt]
      omega
    simp only [pySample, if_neg hne, List.length_cons, ih _ _ hrec]

/-- Every sampled element comes from the sampled list. -/
theorem pySample_subset (xs : List String) (n : Nat) (g : Gen) :
    ∀ x ∈ (pySample xs n g).1, x ∈ xs := by
  induction n generalizing xs g with
  | zero => intro x hx; cases hx
  | succ n ih =>
    by_cases hne : xs = []
    · subst hne
      simp [pySample]
    · intro x hx
      have hxl : 0 < xs.length := List.length_pos.mpr hne
      have hjlt : (nextNat g).1 % xs.length < xs.length := Nat.mod_lt _ hxl
      simp only [pySample, if_neg hne] at hx
      rcases List.mem_cons.mp hx with h | h
      · subst h
        rw [List.getD_eq_getElem _ _ hjlt]
        exact List.getElem_mem hjlt
      · exact List.eraseIdx_subset _ _ (ih _ _ x h)

/-- Sampling without replacement from a duplicate-free list yields a
duplicate-free sample. -/
theorem pySample_nodup (xs : List String) (n : Nat) (g : Gen)
    (h : xs.Nodup) : (pySample xs n g).1.Nodup := by
  induction n generalizing xs g with
  | zero => exact List.nodup_nil
  | succ n ih =>
    by_cases hne : xs = []
    · simp [pySample, hne]
    · have hxl : 0 < xs.length := List.length_pos.mpr hne
      have hjlt : (nextNat g).1 % xs.length < xs.length := Nat.mod_lt _ hxl
      simp only [pySample, if_neg hne]
      refine List.nodup_cons.mpr ⟨?_, ih _ _ ?_⟩
      · intro hmem
        have h2 : xs.getD ((nextNat g).1 % xs.length) ""
            ∈ xs.eraseIdx ((nextNat g).1 % xs.length) :=
          pySample_subset _ _ _ _ hmem
        have hperm := getD_cons_eraseIdx_perm xs ((nextNat g).1 % xs.length) hjlt
        exact (List.nodup_cons.mp (hperm.symm.nodup h)).1 h2
      · exact (List.eraseIdx_sublist xs _).nodup h

/-- `Series.unique()` yields a duplicate-free list. -/
theorem uniqueFirst_nodup (xs : List String) : (uniqueFirst xs).Nodup := by
  have key : ∀ (l : List String) (acc : List String), acc.Nodup →
      (l.foldl (fun acc x => if x ∈ acc then acc else acc ++ [x]) acc).Nodup := by
    intro l
    induction l with
    | nil => intro acc h; exact h
    | cons a tl ih =>
      intro acc h
      simp only [List.foldl_cons]
      by_cases hmem : a ∈ acc
      · rw [if_pos hmem]; exact ih acc h
      · rw [if_neg hmem]
        refine ih _ ?_
        rw [List.nodup_append]
        refine ⟨h, List.nodup_singleton a, ?_⟩
        intro x hx hx1
        rw [List.mem_singleton] at hx1
        subst hx1
        exact hmem hx
  exact key xs [] List.nodup_nil

/-- The configured sample size is at least 1 … -/
theorem one_le_merchantSampleSize (n : Nat) : 1 ≤ merchantSampleSize n := by
  show 1 ≤ if n * 16 / 100 > 0 then n * 16 / 100 else 1
  split <;> omega

/-- … and, on a non-empty universe, at most the universe size. -/
theorem merchantSampleSize_le (n : Nat) (h : 1 ≤ n) : merchantSampleSize n ≤ n := by
  show (if n * 16 / 100 > 0 then n * 16 / 100 else 1) ≤ n
  split
  · calc n * 16 / 100 ≤ n * 16 / 16 := Nat.div_le_div_left (by norm_num) (by norm_num)
      _ = n := Nat.mul_div_cancel n (by norm_num)
  · omega

/-- Claim C2, counterexample. The merchant sample size is not
`round(receiver_count × merchant_rate)`: with 12 distinct receivers the code
computes `int(12 · 0.16) = 1` (truncation), while the claimed
`max(round(12 · 0.16), 1)` is `2`. -/
theorem merchant_count_not_round :
    (merchantSample
      ((List.range 12).map (fun i =>
        ({ transaction_id := "T", sender_id := "s",
           receiver_id := "r" ++ toString i, amount := 1, timestamp := "t",
           label := 0 } : Row))) [0]).length = 1
    ∧ max (round ((12 : Rat) * (16 / 100))).toNat 1 = 2 := by
  constructor
  · decide
  · have h2 : round ((12 : Rat) * (16 / 100)) = 2 := by norm_num [round_eq]
    rw [h2]
    decide

/-- Claim C2, amended. For every non-empty receiver universe, role assignment
marks as merchants exactly a random sample of size
`int(receiver_count × merchant_rate)` — float truncation, not rounding —
with a minimum of 1, drawn without replacement: the merchant set has size
≥ 1, is duplicate-free, is a subset of the receiver universe, and every
receiver outside the sample is typed `user`. -/
theorem merchant_sample_spec (rows : List Row) (g : Gen)
    (hne : uniqueFirst (rows.map (·.receiver_id)) ≠ []) :
    (merchantSample rows g).length
        = merchantSampleSize (uniqueFirst (rows.map (·.receiver_id))).length
    ∧ 1 ≤ (merchantSample rows g).length
    ∧ (merchantSample rows g).Nodup
    ∧ (∀ x ∈ merchantSample rows g, x ∈ uniqueFirst (rows.map (·.receiver_id)))
    ∧ (∀ r : String, receiverType (merchantSample rows g) r
        = if r ∈ merchantSample rows g then "merchant" else "user") := by
  have hlen1 : 1 ≤ (uniqueFirst (rows.map (·.receiver_id))).length :=
    List.length_pos.mpr hne
  have hsz := merchantSampleSize_le _ hlen1
  refine ⟨pySample_length _ _ _ hsz, ?_, pySample_nodup _ _ _ (uniqueFirst_nodup _),
    pySample_subset _ _ _, fun r => rfl⟩
  have hlenEq : (merchantSample rows g).length
      = merchantSampleSize (uniqueFirst (rows.map (·.receiver_id))).length :=
    pySample_length _ _ _ hsz
  rw [hlenEq]
  exact one_le_merchantSampleSize _

/-- Witness for `merchant_sample_spec` on two distinct receivers. -/
theorem merchant_sample_spec_witness :
    1 ≤ (merchantSample
      [({ transaction_id := "T0", sender_id := "s", receiver_id := "x",
          amount := 1, timestamp := "t", label := 0 } : Row),
       ({ transaction_id := "T1", sender_id := "s", receiver_id := "y",
          amount := 1, timestamp := "t", label := 0 } : Row)] [3]).length :=
  (merchant_sample_spec _ [3] (by decide)).2.1

-- ---------- sharing-loop lemmas (C1, C10) ----------

theorem setGroup_isSome (m : AttrMap) (group : List String) (v s : String)
    (h : (m s).isSome = true) : ((setGroup m group v) s).isSome = true := by
  unfold setGroup
  split
  · rfl
  · exact h

/-- Every group the device sharing loop records has at least two members
(the `len(group) < 2` guard breaks before recording smaller ones). -/
theorem deviceShareLoopF_groups (fuel : Nat) (rem : List String) (m : AttrMap)
    (g : Gen) : ∀ grp ∈ (deviceShareLoopF fuel rem m g).2, 2 ≤ grp.length := by
  induction fuel generalizing rem m g with
  | zero =>
    intro grp hg
    cases rem <;> simp [deviceShareLoopF] at hg
  | succ fuel ih =>
    intro grp hg
    cases rem with
    | nil => simp [deviceShareLoopF] at hg
    | cons a tl =>
      simp only [deviceShareLoopF] at hg
      by_cases hcoin : (bernoulli SHARE_RATE_PM g).1 = true
      · rw [if_pos hcoin] at hg
        by_cases hlen : ((a :: tl).take
            (randint MIN_GROUP MAX_GROUP (bernoulli SHARE_RATE_PM g).2).1).length < 2
        · rw [if_pos hlen] at hg
          cases hg
        · rw [if_neg hlen] at hg
          rcases List.mem_cons.mp hg with h | h
          · subst h; omega
          · exact ih _ _ _ grp h
      · rw [if_neg hcoin] at hg
        exact ih _ _ _ grp hg

/-- The device sharing loop only overwrites values, never removes one. -/
theorem deviceShareLoopF_isSome (fuel : Nat) (rem : List String) (m : AttrMap)
    (g : Gen) (s : String) (h : (m s).isSome = true) :
    (((deviceShareLoopF fuel rem m g).1) s).isSome = true := by
  induction fuel generalizing rem m g with
  | zero => cases rem <;> simpa [deviceShareLoopF]
  | succ fuel ih =>
    cases rem with
    | nil => simpa [deviceShareLoopF]
    | cons a tl =>
      simp only [deviceShareLoopF]
      by_cases hcoin : (bernoulli SHARE_RATE_PM g).1 = true
      · rw [if_pos hcoin]
        by_cases hlen : ((a :: tl).take
            (randint MIN_GROUP MAX_GROUP (bernoulli SHARE_RATE_PM g).2).1).length < 2
        · rw [if_pos hlen]
          exact h
        · rw [if_neg hlen]
          exact ih _ _ _ (setGroup_isSome _ _ _ _ h)
      · rw [if_neg hcoin]
        exact ih _ _ _ h

/-- The contact sharing loop only overwrites values, never removes one. -/
theorem contactShareLoopF_isSome (fuel : Nat) (rem : List String)
    (mp me : AttrMap) (g : Gen) (s : String)
    (hp : (mp s).isSome = true) (he : (me s).isSome = true) :
    ((contactShareLoopF fuel rem mp me g).1 s).isSome = true
    ∧ ((contactShareLoopF fuel rem mp me g).2.1 s).isSome = true := by
  induction fuel generalizing rem mp me g with
  | zero => cases rem <;> simp [contactShareLoopF] <;> exact ⟨hp, he⟩
  | succ fuel ih =>
    cases rem with
    | nil =>
      simp only [contactShareLoopF]
      exact ⟨hp, he⟩
    | cons a tl =>
      simp only [contactShareLoopF]
      by_cases hcoin : (bernoulli PHONE_SHARE_PM g).1 = true
      · rw [if_pos hcoin]
        exact ih _ _ _ _ (setGroup_isSome _ _ _ _ hp) (setGroup_isSome _ _ _ _ he)
      · rw [if_neg hcoin]
        exact ih _ _ _ _ hp he

/-- The contact sharing loop never touches keys outside its remaining
cursor suffix. -/
theorem contactShareLoopF_frame (fuel : Nat) (rem : List String)
    (mp me : AttrMap) (g : Gen) (s : String) (hs : s ∉ rem) :
    (contactShareLoopF fuel rem mp me g).1 s = mp s
    ∧ (contactShareLoopF fuel rem mp me g).2.1 s = me s := by
  induction fuel generalizing rem mp me g with
  | zero => cases rem <;> simp [contactShareLoopF]
  | succ fuel ih =>
    cases rem with
    | nil => simp [contactShareLoopF]
    | cons a tl =>
      simp only [contactShareLoopF]
      have hgrp : ∀ k, s ∉ (a :: tl).take k :=
        fun k hmem => hs (List.take_subset k (a :: tl) hmem)
      have hdrop : ∀ k, s ∉ (a :: tl).drop k :=
        fun k hmem => hs (List.drop_subset k (a :: tl) hmem)
      have htail : s ∉ (a :: tl).tail :=
        fun hmem => hs (List.tail_subset (a :: tl) hmem)
      by_cases hcoin : (bernoulli PHONE_SHARE_PM g).1 = true
      · rw [if_pos hcoin]
        constructor
        · rw [(ih _ _ _ _ (hdrop _)).1]
          unfold setGroup
          rw [if_neg (hgrp _)]
        · rw [(ih _ _ _ _ (hdrop _)).2]
          unfold setGroup
          rw [if_neg (hgrp _)]
      · rw [if_neg hcoin]
        exact ih _ _ _ _ htail

/-- On a duplicate-free cursor list, every group the contact sharing loop
records ends up with one shared phone value and one shared email value for
all of its members. -/
theorem contactShareLoopF_groups_share (fuel : Nat) (rem : List String)
    (mp me : AttrMap) (g : Gen) (hnd : rem.Nodup) :
    ∀ grp ∈ (contactShareLoopF fuel rem mp me g).2.2, ∃ vp ve, ∀ s ∈ grp,
      (contactShareLoopF fuel rem mp me g).1 s = some vp
      ∧ (contactShareLoopF fuel rem mp me g).2.1 s = some ve := by
  induction fuel generalizing rem mp me g with
  | zero =>
    intro grp hg
    cases rem <;> simp [contactShareLoopF] at hg
  | succ fuel ih =>
    intro grp hg
    cases rem with
    | nil => simp [contactShareLoopF] at hg
    | cons a tl =>
      have hsplit : ∀ (k : Nat) (s : String), s ∈ (a :: tl).take k →
          s ∉ (a :: tl).drop k := by
        intro k s h1 h2
        have hnd' := hnd
        rw [← List.take_append_drop k (a :: tl)] at hnd'
        exact (List.nodup_append.mp hnd').2.2 h1 h2
      simp only [contactShareLoopF] at hg ⊢
      by_cases hcoin : (bernoulli PHONE_SHARE_PM g).1 = true
      · rw [if_pos hcoin] at hg ⊢
        rcases List.mem_cons.mp hg with h | h
        · subst h
          refine ⟨"P" ++ toString (randint 100000 999999
              (randint 2 5 (bernoulli PHONE_SHARE_PM g).2).2).1,
            "fraud" ++ toString (randint 1000 9999 (randint 100000 999999
              (randint 2 5 (bernoulli PHONE_SHARE_PM g).2).2).2).1 ++ "@mail.com",
            ?_⟩
          intro s hsg
          have hnotdrop := hsplit _ s hsg
          constructor
          · rw [(contactShareLoopF_frame fuel _ _ _ _ s hnotdrop).1]
            unfold setGroup
            rw [if_pos hsg]
          · rw [(contactShareLoopF_frame fuel _ _ _ _ s hnotdrop).2]
            unfold setGroup
            rw [if_pos hsg]
        · refine ih _ _ _ _ ?_ grp h
          exact (List.drop_sublist _ _).nodup hnd
      · rw [if_neg hcoin] at hg ⊢
        refine ih _ _ _ _ ?_ grp hg
        exact (List.tail_sublist _).nodup hnd

/-- An entropy-driven selection shuffle permutes its input. -/
theorem pyShuffleF_perm (fuel : Nat) (xs : List String) (g : Gen)
    (h : xs.length ≤ fuel) : (pyShuffleF fuel xs g).1.Perm xs := by
  induction fuel generalizing xs g with
  | zero =>
    cases xs with
    | nil => simp [pyShuffleF]
    | cons a tl => simp at h
  | succ fuel ih =>
    cases xs with
    | nil => simp [pyShuffleF]
    | cons a tl =>
      simp only [pyShuffleF]
      have hpos : 0 < (a :: tl).length := by simp
      have hj : (nextNat g).1 % (a :: tl).length < (a :: tl).length :=
        Nat.mod_lt _ hpos
      have hlrec : ((a :: tl).eraseIdx ((nextNat g).1 % (a :: tl).length)).length
          ≤ fuel := by
        rw [List.length_eraseIdx, if_pos hj]
        simp only [List.length_cons] at h ⊢
        omega
      exact ((ih _ _ hlrec).cons _).trans (getD_cons_eraseIdx_perm _ _ hj)

/-- The shuffled sender list of a pass. -/
theorem pyShuffle_perm (xs : List String) (g : Gen) :
    (pyShuffle xs g).1.Perm xs :=
  pyShuffleF_perm xs.length xs g (le_refl _)

/-- Claim C1, counterexample. In the phone/email family the `len(group) < 2`
abandonment does not exist: on a universe of one sender, a run that draws a
sharing success records the singleton group `["a"]` and deliberately assigns
it a shared phone (and email) value — a "shared" group of size 1 < 2,
refuting the claimed invariant for the phone and email families. -/
theorem contact_singleton_shared_group :
    (assignContactsMap ["a"] [0, 0, 0, 0, 0, 0, 5, 7]).groups = [["a"]]
    ∧ (assignContactsMap ["a"] [0, 0, 0, 0, 0, 0, 5, 7]).phone "a" = some "P100005"
    ∧ ¬ (∀ grp ∈ (assignContactsMap ["a"] [0, 0, 0, 0, 0, 0, 5, 7]).groups,
          2 ≤ grp.length) := by
  refine ⟨by decide, by decide, ?_⟩
  intro h
  exact absurd (h ["a"] (by decide)) (by decide)

/-- Claim C1, amended. For every run and every attribute family each identity has
exactly one assigned value after synthesis (the maps are total on the sender
universe), and every *device* group deliberately given a shared value has
size ≥ 2 (a drawn device group with fewer than 2 remaining members aborts
the pass).  For phones and emails the guard is absent, and a trailing drawn
group of size 1 can still be given a shared value. -/
theorem sharing_invariant_amended (senders : List String) (g : Gen) :
    (∀ grp ∈ (assignDevicesMap senders g).2, 2 ≤ grp.length)
    ∧ (∀ s ∈ senders,
        ((assignDevicesMap senders g).1 s).isSome = true
        ∧ ((assignContactsMap senders g).phone s).isSome = true
        ∧ ((assignContactsMap senders g).email s).isSome = true) := by
  constructor
  · exact deviceShareLoopF_groups _ _ _ _
  · intro s hs
    have hdev : (((initDeviceValues senders g).1) s).isSome = true := by
      obtain ⟨n, _, _, hv⟩ := (init_values_assign_each senders g [] [] [] s hs).1
      rw [hv]; rfl
    have hph : (((initPhones senders
        (initLocations senders g).2).1) s).isSome = true := by
      obtain ⟨n, _, _, hv⟩ :=
        (init_values_assign_each senders [] (initLocations senders g).2 [] [] s hs).2.1
      rw [hv]; rfl
    have hem : (((initEmails senders (initPhones senders
        (initLocations senders g).2).2).1) s).isSome = true := by
      obtain ⟨n, _, _, hv⟩ := (init_values_assign_each senders [] []
        (initPhones senders (initLocations senders g).2).2 [] s hs).2.2.1
      rw [hv]; rfl
    refine ⟨deviceShareLoopF_isSome _ _ _ _ s hdev, ?_⟩
    have hc := contactShareLoopF_isSome (pyShuffle senders (initEmails senders
        (initPhones senders (initLocations senders g).2).2).2).1.length
      (pyShuffle senders (initEmails senders
        (initPhones senders (initLocations senders g).2).2).2).1
      (initPhones senders (initLocations senders g).2).1
      (initEmails senders (initPhones senders (initLocations senders g).2).2).1
      (pyShuffle senders (initEmails senders
        (initPhones senders (initLocations senders g).2).2).2).2 s hph hem
    exact hc

/-- Witness for `sharing_invariant_amended` at a concrete run. -/
theorem sharing_invariant_amended_witness :
    ((assignDevicesMap ["a", "b"] (List.replicate 12 0)).1 "a").isSome = true :=
  ((sharing_invariant_amended ["a", "b"] (List.replicate 12 0)).2 "a"
    (by decide)).1

/-- Claim C10. Phone and email sharing groups coincide: each drawn group of the
contact pass is consumed once and assigned both one shared phone value and
one shared email value, so any two identities placed in the same group share
both attributes.  (The sender universe is duplicate-free, as
`Series.unique()` guarantees.) -/
theorem contact_groups_share_both (senders : List String) (g : Gen)
    (hnd : senders.Nodup) :
    ∀ grp ∈ (assignContactsMap senders g).groups, ∃ vp ve, ∀ s ∈ grp,
      (assignContactsMap senders g).phone s = some vp
      ∧ (assignContactsMap senders g).email s = some ve := by
  have hshuffnd : (pyShuffle senders (initEmails senders
      (initPhones senders (initLocations senders g).2).2).2).1.Nodup :=
    (pyShuffle_perm senders _).symm.nodup hnd
  exact contactShareLoopF_groups_share _ _ _ _ _ hshuffnd

/-- Witness for `contact_groups_share_both`: a run with two senders forms the
group `["a", "b"]` and both members share phone and email. -/
theorem contact_groups_share_both_witness :
    ∃ vp ve, ∀ s ∈ ["a", "b"],
      (assignContactsMap ["a", "b"] (List.replicate 12 0)).phone s = some vp
      ∧ (assignContactsMap ["a", "b"] (List.replicate 12 0)).email s = some ve :=
  contact_groups_share_both ["a", "b"] (List.replicate 12 0) (by decide)
    ["a", "b"] (by decide)

-- ---------- determinism (C4) ----------

/-- Claim C4. Determinism of the Attribute Synthesizer: the whole assignment chain
of `main` (devices, merchant roles, locations, phones, emails and the
resulting output rows) depends only on the generator state produced by
seeding with the configured `RANDOM_SEED` — each family re-seeds from it —
so two runs over the same input whose seeding agrees at `RANDOM_SEED`
produce identical output rows.  In particular, running twice with the same
seeding function yields identical output. -/
theorem synth_deterministic (f h : Nat → Gen) (rows : List Row)
    (hseed : f RANDOM_SEED = h RANDOM_SEED) :
    runSynth f rows = runSynth h rows := by
  unfold runSynth
  rw [hseed]

/-- Witness for `synth_deterministic` at a concrete seeding pair. -/
theorem synth_deterministic_witness :
    runSynth (fun _ => [1, 2]) [⟨"T0", "s1", "r1", 1, "t", 0⟩]
      = runSynth (fun n => if n = 28 then [1, 2] else [9])
          [⟨"T0", "s1", "r1", 1, "t", 0⟩] :=
  synth_deterministic _ _ _ (by decide)

-- ---------- export-query lemmas (C8) ----------

instance : IsTotal ExportRow exportOrder where
  total a b := by
    unfold exportOrder
    cases ha : a.highRisk <;> cases hb : b.highRisk
    · rcases lt_trichotomy b.coUsers a.coUsers with h | h | h
      · exact Or.inl (Or.inr ⟨rfl, Or.inl h⟩)
      · rcases le_total b.pr a.pr with hp | hp
        · exact Or.inl (Or.inr ⟨rfl, Or.inr ⟨h.symm, hp⟩⟩)
        · exact Or.inr (Or.inr ⟨rfl, Or.inr ⟨h, hp⟩⟩)
      · exact Or.inr (Or.inr ⟨rfl, Or.inl h⟩)
    · exact Or.inr (Or.inl ⟨rfl, rfl⟩)
    · exact Or.inl (Or.inl ⟨rfl, rfl⟩)
    · rcases lt_trichotomy b.coUsers a.coUsers with h | h | h
      · exact Or.inl (Or.inr ⟨rfl, Or.inl h⟩)
      · rcases le_total b.pr a.pr with hp | hp
        · exact Or.inl (Or.inr ⟨rfl, Or.inr ⟨h.symm, hp⟩⟩)
        · exact Or.inr (Or.inr ⟨rfl, Or.inr ⟨h, hp⟩⟩)
      · exact Or.inr (Or.inr ⟨rfl, Or.inl h⟩)

instance : IsTrans ExportRow exportOrder where
  trans a b c hab hbc := by
    unfold exportOrder at hab hbc ⊢
    rcases hab with ⟨hat, hbf⟩ | ⟨hab1, hab2⟩
    · rcases hbc with ⟨hbt, _⟩ | ⟨hbc1, _⟩
      · rw [hbf] at hbt; cases hbt
      · exact Or.inl ⟨hat, hbc1 ▸ hbf⟩
    · rcases hbc with ⟨hbt, hcf⟩ | ⟨hbc1, hbc2⟩
      · exact Or.inl ⟨hab1.trans hbt, hcf⟩
      · refine Or.inr ⟨hab1.trans hbc1, ?_⟩
        rcases hab2 with hlt | ⟨heq, hpr⟩
        · rcases hbc2 with hlt2 | ⟨heq2, _⟩
          · exact Or.inl (hlt2.trans hlt)
          · exact Or.inl (heq2 ▸ hlt)
        · rcases hbc2 with hlt2 | ⟨heq2, hpr2⟩
          · exact Or.inl (heq ▸ hlt2)
          · exact Or.inr ⟨heq.trans heq2, hpr2.trans hpr⟩

/-- Claim C8. The risk export returns exactly the users flagged suspicious or
high-risk (every exported row is the projection of a flagged user, and when
at most `LIMIT` users are flagged, the export is a permutation of all of
them), sorted by (highRisk desc, coUsers desc, pr desc), capped at the fixed
maximum of 1000 rows, with missing numerics defaulted to 0 and missing
community to -1; in particular, of two exported rows with equal co-user
counts, a high-risk one never follows a non-high-risk one. -/
theorem export_query_spec (pop : List UserProps) :
    (exportRows pop).length ≤ EXPORT_LIMIT
    ∧ List.Sorted exportOrder (exportRows pop)
    ∧ (∀ row ∈ exportRows pop, ∃ u ∈ pop, flagged u = true ∧ row = mkExportRow u)
    ∧ ((pop.filter flagged).length ≤ EXPORT_LIMIT →
        (exportRows pop).Perm ((pop.filter flagged).map mkExportRow))
    ∧ (∀ u : UserProps, (mkExportRow u).coUsers = coalesce0 u.coUsers
        ∧ (mkExportRow u).degree = coalesce0 u.degree
        ∧ (mkExportRow u).triangles = coalesce0 u.triangles
        ∧ (mkExportRow u).community = u.community.getD (-1)
        ∧ (mkExportRow u).highRisk = u.highRisk.getD false
        ∧ (mkExportRow u).pr = roundTo6 (u.pr.getD 0))
    ∧ (∀ i j : Fin (exportRows pop).length, i < j →
        ((exportRows pop).get i).coUsers = ((exportRows pop).get j).coUsers →
        ((exportRows pop).get j).highRisk = true →
        ((exportRows pop).get i).highRisk = true) := by
  have hsorted : List.Sorted exportOrder (exportRows pop) :=
    List.Pairwise.sublist (List.take_sublist _ _)
      (List.sorted_insertionSort exportOrder _)
  refine ⟨List.length_take_le _ _, hsorted, ?_, ?_,
    fun u => ⟨rfl, rfl, rfl, rfl, rfl, rfl⟩, ?_⟩
  · intro row hrow
    have h1 : row ∈ List.insertionSort exportOrder
        ((pop.filter flagged).map mkExportRow) :=
      List.take_subset _ _ hrow
    have h2 : row ∈ (pop.filter flagged).map mkExportRow :=
      (List.perm_insertionSort exportOrder _).mem_iff.mp h1
    obtain ⟨u, hu, hru⟩ := List.mem_map.mp h2
    obtain ⟨hup, huf⟩ := List.mem_filter.mp hu
    exact ⟨u, hup, huf, hru.symm⟩
  · intro hle
    have hlen : (List.insertionSort exportOrder
        ((pop.filter flagged).map mkExportRow)).length ≤ EXPORT_LIMIT := by
      rw [(List.perm_insertionSort exportOrder _).length_eq, List.length_map]
      exact hle
    unfold exportRows
    rw [List.take_of_length_le hlen]
    exact List.perm_insertionSort exportOrder _
  · intro i j hij hco hjr
    have hrel := List.pairwise_iff_get.mp hsorted i j hij
    unfold exportOrder at hrel
    rcases hrel with ⟨hit, _⟩ | ⟨heq, _⟩
    · exact hit
    · rw [heq]; exact hjr

/-- Witness for `export_query_spec` at a one-user population. -/
theorem export_query_spec_witness :
    (exportRows [{ id := "u1", pr := some 1, coUsers := some 3,
                   triangles := none, degree := none, community := none,
                   suspicious := some true, highRisk := none }]).length
      ≤ EXPORT_LIMIT :=
  (export_query_spec _).1

-- ---------- idempotency machinery (C7) ----------

theorem set_getD_self (l : List GNode) (j : Nat) :
    l.set j (l.getD j default) = l := by
  induction l generalizing j with
  | nil => rfl
  | cons x xs ih =>
    cases j with
    | zero => rfl
    | succ j => simp only [List.set_cons_succ, List.getD_cons_succ, ih]

theorem findIdx?_some_lt (p : GNode → Bool) (l : List GNode) (j : Nat)
    (h : l.findIdx? p = some j) : j < l.length :=
  (List.findIdx?_eq_some_iff_getElem.mp h).1

theorem findIdx?_some_getD (p : GNode → Bool) (l : List GNode) (j : Nat)
    (h : l.findIdx? p = some j) : p (l.getD j default) = true := by
  obtain ⟨hj, hpj, _⟩ := List.findIdx?_eq_some_iff_getElem.mp h
  rw [List.getD_eq_getElem _ _ hj]
  exact hpj

theorem findIdx?_append_one (p : GNode → Bool) (l : List GNode) (j : Nat)
    (c : GNode) (h : l.findIdx? p = some j) :
    (l ++ [c]).findIdx? p = some j := by
  rw [List.findIdx?_append, h]
  rfl

theorem findIdx?_create (p : GNode → Bool) (l : List GNode) (c : GNode)
    (h : l.findIdx? p = none) (hc : p c = true) :
    (l ++ [c]).findIdx? p = some l.length := by
  rw [List.findIdx?_append, h]
  simp [List.findIdx?_cons, hc]

/-- Overwriting position `t` with a node on which the pattern agrees with the
old inhabitant leaves every pattern search unchanged. -/
theorem findIdx?_set_congr (p : GNode → Bool) (l : List GNode) (t : Nat)
    (v : GNode) (hp : ∀ ht : t < l.length, p (l.get ⟨t, ht⟩) = p v) :
    (l.set t v).findIdx? p = l.findIdx? p := by
  by_cases ht : t < l.length
  case neg =>
    rw [List.set_eq_of_length_le (by omega)]
  case pos =>
  have hlen : (l.set t v).length = l.length := List.length_set _ _ _
  have helem : ∀ (i : Nat) (hi : i < l.length),
      p ((l.set t v).get ⟨i, by omega⟩) = p (l.get ⟨i, hi⟩) := by
    intro i hi
    by_cases hit : t = i
    · subst hit
      have h1 : (l.set t v).get ⟨t, by omega⟩ = v := by
        rw [List.get_eq_getElem]
        exact List.getElem_set_self _
      rw [h1, ← hp ht]
    · have h1 : (l.set t v).get ⟨i, by omega⟩ = l.get ⟨i, hi⟩ := by
        rw [List.get_eq_getElem, List.get_eq_getElem]
        exact List.getElem_set_ne hit _
      rw [h1]
  cases hfind : l.findIdx? p with
  | some j =>
    obtain ⟨hj, hpj, hmin⟩ := List.findIdx?_eq_some_iff_getElem.mp hfind
    apply List.findIdx?_eq_some_iff_getElem.mpr
    refine ⟨by omega, ?_, ?_⟩
    · have := helem j hj
      rw [List.get_eq_getElem, List.get_eq_getElem] at this
      rw [this]
      exact hpj
    · intro i hij
      have hi : i < l.length := by omega
      have := helem i hi
      rw [List.get_eq_getElem, List.get_eq_getElem] at this
      rw [this]
      exact hmin i hij
  | none =>
    apply List.findIdx?_eq_none_iff.mpr
    intro x hx
    obtain ⟨i, hi, hgx⟩ := List.mem_iff_getElem.mp hx
    have hi' : i < l.length := by omega
    have := helem i hi'
    rw [List.get_eq_getElem, List.get_eq_getElem] at this
    rw [← hgx, this]
    exact Bool.eq_false_iff.mpr
      (fun hc => by
        have := List.findIdx?_eq_none_iff.mp hfind _ (List.getElem_mem hi')
        rw [this] at hc
        cases hc)

theorem mergeNode_of_found (G : Graph) (p : GNode → Bool) (c : GNode)
    (j : Nat) (h : G.nodes.findIdx? p = some j) : mergeNode G p c = (j, G) := by
  unfold mergeNode
  rw [h]

/-- After a node MERGE the pattern search resolves to the bound index. -/
theorem mergeNode_finds (G : Graph) (p : GNode → Bool) (c : GNode)
    (hc : p c = true) :
    (mergeNode G p c).2.nodes.findIdx? p = some (mergeNode G p c).1 := by
  unfold mergeNode
  cases h : G.nodes.findIdx? p with
  | some j => exact h
  | none => exact findIdx?_create p G.nodes c h hc

theorem mergeNode_fst_lt (G : Graph) (p : GNode → Bool) (c : GNode) :
    (mergeNode G p c).1 < (mergeNode G p c).2.nodes.length := by
  unfold mergeNode
  cases h : G.nodes.findIdx? p with
  | some j => exact findIdx?_some_lt p G.nodes j h
  | none => simp

theorem mergeRel_of_mem (G : Graph) (s : Nat) (rel : RelType) (d : Nat)
    (h : (⟨s, rel, d⟩ : GEdge) ∈ G.rels) : mergeRel G s rel d = G := by
  unfold mergeRel
  rw [if_pos h]

theorem mergeRel_mem_self (G : Graph) (s : Nat) (rel : RelType) (d : Nat) :
    (⟨s, rel, d⟩ : GEdge) ∈ (mergeRel G s rel d).rels := by
  unfold mergeRel
  split
  · assumption
  · exact List.mem_append_right _ (List.mem_singleton.mpr rfl)

theorem mergeRel_rels_mono (G : Graph) (s : Nat) (rel : RelType) (d : Nat)
    (x : GEdge) (h : x ∈ G.rels) : x ∈ (mergeRel G s rel d).rels := by
  unfold mergeRel
  split
  · exact h
  · exact List.mem_append_left _ h

theorem mergeTx_of_found (G : Graph) (s t : Nat) (txid : String) (a : Rat)
    (ts : String) (lb : Int)
    (h : G.txs.any (fun x => x.src == s && x.dst == t && x.txid == txid) = true) :
    mergeTx G s t txid a ts lb = G := by
  unfold mergeTx
  rw [if_pos h]

theorem mergeTx_any_self (G : Graph) (s t : Nat) (txid : String) (a : Rat)
    (ts : String) (lb : Int) :
    ((mergeTx G s t txid a ts lb).txs.any
      (fun x => x.src == s && x.dst == t && x.txid == txid)) = true := by
  unfold mergeTx
  split
  · assumption
  · rw [List.any_append]
    simp

theorem mergeTx_any_mono (G : Graph) (s t s' t' : Nat) (txid txid' : String)
    (a : Rat) (ts : String) (lb : Int)
    (h : G.txs.any (fun x => x.src == s && x.dst == t && x.txid == txid) = true) :
    ((mergeTx G s' t' txid' a ts lb).txs.any
      (fun x => x.src == s && x.dst == t && x.txid == txid)) = true := by
  unfold mergeTx
  split
  · exact h
  · rw [List.any_append, h]
    rfl

/-- A node already `Merchant`-and-not-`User` makes the relabel a no-op. -/
theorem modifyNode_locked_eq (G : Graph) (t : Nat)
    (hm : (G.nodes.getD t default).isMerchant = true)
    (hu : (G.nodes.getD t default).isUser = false) :
    modifyNode G t relabelMerchant = G := by
  unfold modifyNode
  have hfix : relabelMerchant (G.nodes.getD t default) = G.nodes.getD t default := by
    unfold relabelMerchant
    cases hnode : G.nodes.getD t default with
    | mk id u m dv lc ph em =>
      rw [hnode] at hm hu
      simp at hm hu
      subst hm
      subst hu
      rfl
  rw [hfix, set_getD_self]

/-- The bound node of a MERGE satisfies its pattern. -/
theorem mergeNode_getD_sat (G : Graph) (p : GNode → Bool) (c : GNode)
    (hc : p c = true) :
    p ((mergeNode G p c).2.nodes.getD (mergeNode G p c).1 default) = true :=
  findIdx?_some_getD p _ _ (mergeNode_finds G p c hc)

/-- Re-processing a fully ingested record leaves the store untouched. -/
theorem ingested_processRecord_eq (G : Graph) (r : LoadRow)
    (h : ingested G r) : processRecord G r = G := by
  obtain ⟨s, t, d, l, p, e, hs, ht, hmerch, hd, hed, hl, hel, hp, hep, he, hee,
    htx⟩ := h
  unfold processRecord
  rw [mergeNode_of_found G _ _ s hs]
  dsimp only
  rw [mergeNode_of_found G _ _ t ht]
  dsimp only
  have hG2 : (if r.receiver_type = "merchant"
      then modifyNode G t relabelMerchant else G) = G := by
    split
    · exact modifyNode_locked_eq G t (hmerch ‹_›).1 (hmerch ‹_›).2
    · rfl
  rw [hG2]
  unfold processResources resourceStep
  rw [mergeNode_of_found G _ _ d hd]
  dsimp only
  rw [mergeRel_of_mem G s .usesDevice d hed]
  rw [mergeNode_of_found G _ _ l hl]
  dsimp only
  rw [mergeRel_of_mem G s .locatedIn l hel]
  rw [mergeNode_of_found G _ _ p hp]
  dsimp only
  rw [mergeRel_of_mem G s .hasPhone p hep]
  rw [mergeNode_of_found G _ _ e he]
  dsimp only
  rw [mergeRel_of_mem G s .hasEmail e hee]
  exact mergeTx_of_found G s t _ _ _ _ htx

theorem mergeNode_findIdx?_stable (G : Graph) (q : GNode → Bool) (c : GNode)
    (p : GNode → Bool) (j : Nat) (hj : G.nodes.findIdx? p = some j) :
    (mergeNode G q c).2.nodes.findIdx? p = some j := by
  unfold mergeNode
  cases h : G.nodes.findIdx? q with
  | some i => exact hj
  | none => exact findIdx?_append_one p _ j c hj

theorem modifyNode_findIdx?_stable (G : Graph) (t : Nat) (p : GNode → Bool)
    (j : Nat) (hj : G.nodes.findIdx? p = some j)
    (hid : p (relabelMerchant (G.nodes.getD t default))
      = p (G.nodes.getD t default)) :
    (modifyNode G t relabelMerchant).nodes.findIdx? p = some j := by
  unfold modifyNode
  rw [findIdx?_set_congr p G.nodes t _ ?_, hj]
  intro ht
  rw [List.get_eq_getElem, ← List.getD_eq_getElem _ default ht]
  exact hid.symm

/-- The relabel locks its target node. -/
theorem modifyNode_locks (G : Graph) (t : Nat) (ht : t < G.nodes.length) :
    merchantLocked (modifyNode G t relabelMerchant) t := by
  unfold modifyNode merchantLocked
  refine ⟨by rw [List.length_set]; omega, ?_⟩
  rw [List.getD_eq_getD_get?, List.get?_eq_getElem?,
    List.getElem?_set_eq_of_lt _ ht]
  exact ⟨rfl, rfl⟩

theorem mergeTx_rels (G : Graph) (s t : Nat) (txid : String) (a : Rat)
    (ts : String) (lb : Int) : (mergeTx G s t txid a ts lb).rels = G.rels := by
  unfold mergeTx; split <;> rfl

theorem ite_rels (c : Prop) [Decidable c] (a b : Graph) :
    (if c then a else b).rels = if c then a.rels else b.rels :=
  apply_ite Graph.rels c a b

theorem resourceStep_findIdx?_stable (G : Graph) (s : Nat)
    (pat : GNode → Bool) (c : GNode) (rel : RelType) (p : GNode → Bool)
    (j : Nat) (hj : G.nodes.findIdx? p = some j) :
    (resourceStep G s pat c rel).nodes.findIdx? p = some j := by
  unfold resourceStep
  rw [mergeRel_nodes]
  exact mergeNode_findIdx?_stable G pat c p j hj

theorem resourceStep_locked (G : Graph) (s : Nat) (pat : GNode → Bool)
    (c : GNode) (rel : RelType) (j : Nat) (h : merchantLocked G j) :
    merchantLocked (resourceStep G s pat c rel) j := by
  unfold resourceStep
  exact locked_mergeRel _ _ _ _ _ (locked_mergeNode _ _ _ _ h)

theorem resourceStep_rels_mono (G : Graph) (s : Nat) (pat : GNode → Bool)
    (c : GNode) (rel : RelType) (x : GEdge) (h : x ∈ G.rels) :
    x ∈ (resourceStep G s pat c rel).rels := by
  unfold resourceStep
  apply mergeRel_rels_mono
  rw [mergeNode_rels]
  exact h

theorem resourceStep_txs (G : Graph) (s : Nat) (pat : GNode → Bool)
    (c : GNode) (rel : RelType) :
    (resourceStep G s pat c rel).txs = G.txs := by
  unfold resourceStep
  rw [mergeRel_txs, mergeNode_txs]

/-- A resource step binds a node matching its pattern and records the
relationship from the sender to it. -/
theorem resourceStep_self (G : Graph) (s : Nat) (pat : GNode → Bool)
    (c : GNode) (rel : RelType) (hc : pat c = true) :
    ∃ d, (resourceStep G s pat c rel).nodes.findIdx? pat = some d
      ∧ (⟨s, rel, d⟩ : GEdge) ∈ (resourceStep G s pat c rel).rels := by
  unfold resourceStep
  refine ⟨(mergeNode G pat c).1, ?_, ?_⟩
  · rw [mergeRel_nodes]
    exact mergeNode_finds G pat c hc
  · exact mergeRel_mem_self _ _ _ _

/-- Pattern searches that already resolve are unaffected by the resource
half (it only appends nodes). -/
theorem processResources_findIdx?_stable (G : Graph) (s t : Nat) (r : LoadRow)
    (p : GNode → Bool) (j : Nat) (hj : G.nodes.findIdx? p = some j) :
    (processResources G s t r).nodes.findIdx? p = some j := by
  unfold processResources
  dsimp only
  rw [mergeTx_nodes]
  apply resourceStep_findIdx?_stable
  apply resourceStep_findIdx?_stable
  apply resourceStep_findIdx?_stable
  apply resourceStep_findIdx?_stable
  exact hj

/-- The merchant lock survives the resource half. -/
theorem processResources_locked (G : Graph) (s t : Nat) (r : LoadRow)
    (j : Nat) (h : merchantLocked G j) :
    merchantLocked (processResources G s t r) j := by
  unfold processResources
  dsimp only
  apply locked_mergeTx
  apply resourceStep_locked
  apply resourceStep_locked
  apply resourceStep_locked
  apply resourceStep_locked
  exact h

/-- Existing relationships survive the resource half. -/
theorem processResources_rels_mono (G : Graph) (s t : Nat) (r : LoadRow)
    (x : GEdge) (h : x ∈ G.rels) : x ∈ (processResources G s t r).rels := by
  unfold processResources
  dsimp only
  rw [mergeTx_rels]
  apply resourceStep_rels_mono
  apply resourceStep_rels_mono
  apply resourceStep_rels_mono
  apply resourceStep_rels_mono
  exact h

/-- An already keyed transaction lookup survives the resource half. -/
theorem processResources_txs_any_stable (G : Graph) (s t : Nat) (r : LoadRow)
    (s' t' : Nat) (txid : String)
    (h : G.txs.any (fun x => x.src == s' && x.dst == t' && x.txid == txid)
      = true) :
    ((processResources G s t r).txs.any
      (fun x => x.src == s' && x.dst == t' && x.txid == txid)) = true := by
  unfold processResources
  dsimp only
  apply mergeTx_any_mono
  simp only [resourceStep_txs]
  exact h

/-- The resource half binds a Device node and its `USES_DEVICE` edge. -/
theorem processResources_device (G : Graph) (s t : Nat) (r : LoadRow) :
    ∃ d, (processResources G s t r).nodes.findIdx?
        (devicePat r.sender_device_id) = some d
      ∧ (⟨s, .usesDevice, d⟩ : GEdge) ∈ (processResources G s t r).rels := by
  unfold processResources
  dsimp only
  obtain ⟨d, hf, hm⟩ := resourceStep_self G s (devicePat r.sender_device_id)
    (mkDevice r.sender_device_id) .usesDevice (by simp [devicePat, mkDevice])
  refine ⟨d, ?_, ?_⟩
  · rw [mergeTx_nodes]
    apply resourceStep_findIdx?_stable
    apply resourceStep_findIdx?_stable
    apply resourceStep_findIdx?_stable
    exact hf
  · rw [mergeTx_rels]
    apply resourceStep_rels_mono
    apply resourceStep_rels_mono
    apply resourceStep_rels_mono
    exact hm

/-- The resource half binds a Location node and its `LOCATED_IN` edge. -/
theorem processResources_location (G : Graph) (s t : Nat) (r : LoadRow) :
    ∃ l, (processResources G s t r).nodes.findIdx?
        (locationPat r.sender_location) = some l
      ∧ (⟨s, .locatedIn, l⟩ : GEdge) ∈ (processResources G s t r).rels := by
  unfold processResources
  dsimp only
  obtain ⟨l, hf, hm⟩ := resourceStep_self
    (resourceStep G s (devicePat r.sender_device_id)
      (mkDevice r.sender_device_id) .usesDevice)
    s (locationPat r.sender_location) (mkLocation r.sender_location)
    .locatedIn (by simp [locationPat, mkLocation])
  refine ⟨l, ?_, ?_⟩
  · rw [mergeTx_nodes]
    apply resourceStep_findIdx?_stable
    apply resourceStep_findIdx?_stable
    exact hf
  · rw [mergeTx_rels]
    apply resourceStep_rels_mono
    apply resourceStep_rels_mono
    exact hm

/-- The resource half binds a Phone node and its `HAS_PHONE` edge. -/
theorem processResources_phone (G : Graph) (s t : Nat) (r : LoadRow) :
    ∃ p, (processResources G s t r).nodes.findIdx?
        (phonePat r.sender_phone) = some p
      ∧ (⟨s, .hasPhone, p⟩ : GEdge) ∈ (processResources G s t r).rels := by
  unfold processResources
  dsimp only
  obtain ⟨p, hf, hm⟩ := resourceStep_self
    (resourceStep (resourceStep G s (devicePat r.sender_device_id)
        (mkDevice r.sender_device_id) .usesDevice)
      s (locationPat r.sender_location) (mkLocation r.sender_location)
      .locatedIn)
    s (phonePat r.sender_phone) (mkPhone r.sender_phone) .hasPhone
    (by simp [phonePat, mkPhone])
  refine ⟨p, ?_, ?_⟩
  · rw [mergeTx_nodes]
    apply resourceStep_findIdx?_stable
    exact hf
  · rw [mergeTx_rels]
    apply resourceStep_rels_mono
    exact hm

/-- The resource half binds an Email node and its `HAS_EMAIL` edge. -/
theorem processResources_email (G : Graph) (s t : Nat) (r : LoadRow) :
    ∃ e, (processResources G s t r).nodes.findIdx?
        (emailPat r.sender_email) = some e
      ∧ (⟨s, .hasEmail, e⟩ : GEdge) ∈ (processResources G s t r).rels := by
  unfold processResources
  dsimp only
  obtain ⟨e, hf, hm⟩ := resourceStep_self
    (resourceStep (resourceStep (resourceStep G s
          (devicePat r.sender_device_id) (mkDevice r.sender_device_id)
          .usesDevice)
        s (locationPat r.sender_location) (mkLocation r.sender_location)
        .locatedIn)
      s (phonePat r.sender_phone) (mkPhone r.sender_phone) .hasPhone)
    s (emailPat r.sender_email) (mkEmail r.sender_email) .hasEmail
    (by simp [emailPat, mkEmail])
  refine ⟨e, ?_, ?_⟩
  · rw [mergeTx_nodes]
    exact hf
  · rw [mergeTx_rels]
    exact hm

/-- The resource half keys the `TRANSACTS_WITH` edge. -/
theorem processResources_tx (G : Graph) (s t : Nat) (r : LoadRow) :
    ((processResources G s t r).txs.any
      (fun x => x.src == s && x.dst == t && x.txid == r.transaction_id))
      = true := by
  unfold processResources
  dsimp only
  exact mergeTx_any_self _ _ _ _ _ _ _

/-- The node a bare-id MERGE binds carries the merged id. -/
theorem mergeNode_bare_id (A : Graph) (i : String) (c : GNode)
    (hc : barePat i c = true) :
    ((mergeNode A (barePat i) c).2.nodes.getD
      (mergeNode A (barePat i) c).1 default).id = i := by
  have h := mergeNode_getD_sat A (barePat i) c hc
  unfold barePat at h
  rw [beq_iff_eq] at h
  exact h

/-- The relabel leaves a sender-pattern check unchanged on a node whose id
differs from the pattern's. -/
theorem userPat_relabel (i : String) (n : GNode) (hne : n.id ≠ i) :
    userPat i (relabelMerchant n) = userPat i n := by
  unfold userPat relabelMerchant
  dsimp only
  rw [beq_eq_false_iff_ne.mpr hne]
  simp

/-- Pattern searches survive a whole record, provided the pattern is
unaffected by a relabel of any node carrying the record's receiver id. -/
theorem processRecord_findIdx?_stable (G : Graph) (r' : LoadRow)
    (p : GNode → Bool) (j : Nat) (hj : G.nodes.findIdx? p = some j)
    (hrlab : r'.receiver_type = "merchant" →
      ∀ n : GNode, n.id = r'.receiver_id → p (relabelMerchant n) = p n) :
    (processRecord G r').nodes.findIdx? p = some j := by
  unfold processRecord
  dsimp only
  apply processResources_findIdx?_stable
  split
  · rename_i hmt
    apply modifyNode_findIdx?_stable
    · apply mergeNode_findIdx?_stable
      apply mergeNode_findIdx?_stable
      exact hj
    · have hsat := mergeNode_getD_sat
        (mergeNode G (userPat r'.sender_id) (mkUser r'.sender_id)).2
        (barePat r'.receiver_id) (mkUser r'.receiver_id)
        (by simp [barePat, mkUser])
      unfold barePat at hsat
      rw [beq_iff_eq] at hsat
      exact hrlab hmt _ hsat
  · apply mergeNode_findIdx?_stable
    apply mergeNode_findIdx?_stable
    exact hj

/-- Already keyed transactions survive a whole record. -/
theorem processRecord_txs_any_stable (G : Graph) (r' : LoadRow)
    (s' t' : Nat) (txid : String)
    (h : G.txs.any (fun x => x.src == s' && x.dst == t' && x.txid == txid)
      = true) :
    ((processRecord G r').txs.any
      (fun x => x.src == s' && x.dst == t' && x.txid == txid)) = true := by
  unfold processRecord
  dsimp only
  apply processResources_txs_any_stable
  simp only [ite_txs, modifyNode_txs, ite_self, mergeNode_txs]
  exact h

theorem modifyNode_rels' (G : Graph) (j : Nat) (f : GNode → GNode) :
    (modifyNode G j f).rels = G.rels := rfl

/-- Existing relationships survive a whole record. -/
theorem processRecord_rels_mono (G : Graph) (r' : LoadRow) (x : GEdge)
    (h : x ∈ G.rels) : x ∈ (processRecord G r').rels := by
  unfold processRecord
  dsimp only
  apply processResources_rels_mono
  simp only [ite_rels, modifyNode_rels, ite_self, mergeNode_rels]
  exact h

/-- An ingested record stays ingested through any further record whose
relabel cannot strip the `User` label off that record's sender nodes. -/
theorem ingested_processRecord_mono (G : Graph) (r r' : LoadRow)
    (hdisj : r'.receiver_type = "merchant" → r.sender_id ≠ r'.receiver_id)
    (h : ingested G r) : ingested (processRecord G r') r := by
  obtain ⟨s, t, d, l, p, e, hs, ht, hmerch, hd, hed, hl, hel, hp, hep, he, hee,
    htx⟩ := h
  refine ⟨s, t, d, l, p, e, ?_, ?_, ?_, ?_, ?_, ?_, ?_, ?_, ?_, ?_, ?_, ?_⟩
  · apply processRecord_findIdx?_stable G r' _ _ hs
    intro hmt n hid
    have hne := hdisj hmt
    unfold userPat relabelMerchant
    dsimp only
    have hidf : (n.id == r.sender_id) = false := by
      rw [beq_eq_false_iff_ne, hid]
      exact fun hh => hne hh.symm
    rw [hidf]
    simp
  · apply processRecord_findIdx?_stable G r' _ _ ht
    intro _ n _
    rfl
  · intro hm
    have hlock : merchantLocked G t :=
      ⟨findIdx?_some_lt _ _ _ ht, (hmerch hm).1, (hmerch hm).2⟩
    have hres := locked_processRecord G r' t hlock
    exact ⟨hres.2.1, hres.2.2⟩
  · apply processRecord_findIdx?_stable G r' _ _ hd
    intro _ n _
    rfl
  · exact processRecord_rels_mono _ _ _ hed
  · apply processRecord_findIdx?_stable G r' _ _ hl
    intro _ n _
    rfl
  · exact processRecord_rels_mono _ _ _ hel
  · apply processRecord_findIdx?_stable G r' _ _ hp
    intro _ n _
    rfl
  · exact processRecord_rels_mono _ _ _ hep
  · apply processRecord_findIdx?_stable G r' _ _ he
    intro _ n _
    rfl
  · exact processRecord_rels_mono _ _ _ hee
  · exact processRecord_txs_any_stable _ _ _ _ _ htx

/-- After the resource half, the record is ingested, given that both bound
person nodes resolve and the relabel has been applied. -/
theorem ingested_processResources (G2 : Graph) (s t : Nat) (r : LoadRow)
    (hSu : G2.nodes.findIdx? (userPat r.sender_id) = some s)
    (hTb : G2.nodes.findIdx? (barePat r.receiver_id) = some t)
    (hTlock : r.receiver_type = "merchant" → merchantLocked G2 t) :
    ingested (processResources G2 s t r) r := by
  obtain ⟨d, hfd, hmd⟩ := processResources_device G2 s t r
  obtain ⟨l, hfl, hml⟩ := processResources_location G2 s t r
  obtain ⟨p, hfp, hmp⟩ := processResources_phone G2 s t r
  obtain ⟨e, hfe, hme⟩ := processResources_email G2 s t r
  refine ⟨s, t, d, l, p, e,
    processResources_findIdx?_stable _ _ _ _ _ _ hSu,
    processResources_findIdx?_stable _ _ _ _ _ _ hTb,
    ?_, hfd, hmd, hfl, hml, hfp, hmp, hfe, hme,
    processResources_tx _ _ _ _⟩
  intro hm
  have hres := processResources_locked G2 s t r t (hTlock hm)
  exact ⟨hres.2.1, hres.2.2⟩

/-- Processing a record ingests it, provided the record does not relabel its
own sender (its sender id differs from its receiver id when the receiver is
a merchant). -/
theorem processRecord_ingested (G : Graph) (r : LoadRow)
    (hself : r.receiver_type = "merchant" → r.sender_id ≠ r.receiver_id) :
    ingested (processRecord G r) r := by
  unfold processRecord
  dsimp only
  apply ingested_processResources
  · split
    · rename_i hmt
      apply modifyNode_findIdx?_stable
      · apply mergeNode_findIdx?_stable
        exact mergeNode_finds G _ _ (by simp [userPat, mkUser])
      · apply userPat_relabel
        rw [mergeNode_bare_id
          (mergeNode G (userPat r.sender_id) (mkUser r.sender_id)).2
          r.receiver_id (mkUser r.receiver_id) (by simp [barePat, mkUser])]
        exact fun hh => (hself hmt) hh.symm
    · apply mergeNode_findIdx?_stable
      exact mergeNode_finds G _ _ (by simp [userPat, mkUser])
  · split
    · apply modifyNode_findIdx?_stable
      · exact mergeNode_finds _ _ _ (by simp [barePat, mkUser])
      · rfl
    · exact mergeNode_finds _ _ _ (by simp [barePat, mkUser])
  · intro hm
    rw [if_pos hm]
    exact modifyNode_locks _ _ (mergeNode_fst_lt _ _ _)

/-- A batch of no-op records leaves the store untouched. -/
theorem loadBatch_eq_of_all_ingested (G : Graph) (rows : List LoadRow)
    (h : ∀ r ∈ rows, processRecord G r = G) : loadBatch G rows = G := by
  induction rows with
  | nil => rfl
  | cons r tl ih =>
    unfold loadBatch
    simp only [List.foldl_cons]
    rw [h r (List.mem_cons_self _ _)]
    exact ih (fun r' hr' => h r' (List.mem_cons_of_mem _ hr'))

/-- An ingested record stays ingested through a whole compatible batch. -/
theorem ingested_loadBatch_mono (G : Graph) (r : LoadRow)
    (rows : List LoadRow) (h : ingested G r)
    (hd : ∀ r' ∈ rows, r'.receiver_type = "merchant"
      → r.sender_id ≠ r'.receiver_id) :
    ingested (loadBatch G rows) r := by
  induction rows generalizing G with
  | nil => exact h
  | cons r' tl ih =>
    unfold loadBatch
    simp only [List.foldl_cons]
    exact ih (processRecord G r')
      (ingested_processRecord_mono G r r' (hd r' (List.mem_cons_self _ _)) h)
      (fun x hx => hd x (List.mem_cons_of_mem _ hx))

/-- After one full ingestion of a compatible batch, every record of the
batch is ingested. -/
theorem loadBatch_ingested_all (G : Graph) (rows : List LoadRow)
    (hd : senderMerchantDisjoint rows) :
    ∀ r ∈ rows, ingested (loadBatch G rows) r := by
  induction rows generalizing G with
  | nil => intro r hr; cases hr
  | cons r1 tl ih =>
    intro r hr
    unfold loadBatch
    simp only [List.foldl_cons]
    rcases List.mem_cons.mp hr with hh | hh
    · subst hh
      apply ingested_loadBatch_mono
      · exact processRecord_ingested G r
          (hd r (List.mem_cons_self _ _) r (List.mem_cons_self _ _))
      · intro x hx hm
        exact hd r (List.mem_cons_self _ _) x (List.mem_cons_of_mem _ hx) hm
    · exact ih (processRecord G r1)
        (fun a ha b hb => hd a (List.mem_cons_of_mem _ ha)
          b (List.mem_cons_of_mem _ hb)) r hh

/-- Claim C7, counterexample. Ingestion is not idempotent: a record whose sender
id equals its merchant receiver id (`X` pays itself, typed merchant) makes
the relabel strip `X`'s `User` label, so re-ingesting the same batch
creates a second node with id `X` (5 nodes become 6) and a duplicate keyed
transaction edge. -/
theorem ingest_not_idempotent :
    (loadBatch (loadBatch Graph.empty
        [⟨"T1", "X", "X", "merchant", 1, "ts", "D1", "L1", "P1", "E1", 0⟩])
      [⟨"T1", "X", "X", "merchant", 1, "ts", "D1", "L1", "P1", "E1", 0⟩]
    ≠ loadBatch Graph.empty
        [⟨"T1", "X", "X", "merchant", 1, "ts", "D1", "L1", "P1", "E1", 0⟩])
    ∧ (loadBatch Graph.empty
        [⟨"T1", "X", "X", "merchant", 1, "ts", "D1", "L1", "P1", "E1", 0⟩]).nodes.length
        = 5
    ∧ (loadBatch (loadBatch Graph.empty
        [⟨"T1", "X", "X", "merchant", 1, "ts", "D1", "L1", "P1", "E1", 0⟩])
      [⟨"T1", "X", "X", "merchant", 1, "ts", "D1", "L1", "P1", "E1", 0⟩]).nodes.length
        = 6 := by
  refine ⟨by decide, by decide, by decide⟩

/-- Claim C7, amended. Ingestion is idempotent on batches in which no identity
occurs both as a sender and as the receiver of a merchant-typed record: for
every graph state and every such batch, ingesting the batch twice produces
the same graph state (hence the same node and edge counts) as ingesting it
once.  Without that restriction the merchant relabel strips the `User`
label off a node the sender merge needs, and re-ingestion creates a
duplicate node. -/
theorem ingest_idempotent_amended (G : Graph) (rows : List LoadRow)
    (hd : senderMerchantDisjoint rows) :
    loadBatch (loadBatch G rows) rows = loadBatch G rows := by
  apply loadBatch_eq_of_all_ingested
  intro r hr
  exact ingested_processRecord_eq _ _ (loadBatch_ingested_all G rows hd r hr)

/-- Witness for `ingest_idempotent_amended` at a concrete batch. -/
theorem ingest_idempotent_amended_witness :
    loadBatch (loadBatch Graph.empty
        [⟨"T1", "A", "B", "merchant", 1, "ts", "D1", "L1", "P1", "E1", 0⟩])
      [⟨"T1", "A", "B", "merchant", 1, "ts", "D1", "L1", "P1", "E1", 0⟩]
    = loadBatch Graph.empty
        [⟨"T1", "A", "B", "merchant", 1, "ts", "D1", "L1", "P1", "E1", 0⟩] :=
  ingest_idempotent_amended _ _ (by unfold senderMerchantDisjoint; decide)

/-- Witness for `risk_rules_iff` at a concrete user. -/
theorem risk_rules_iff_witness :
    ((setHighRisk 0 0 (setSuspicious 0 0
        { id := "u1", pr := some 1, coUsers := some 3, triangles := none,
          degree := none, community := none, suspicious := none,
          highRisk := none })).suspicious = some true
      ↔ ((0 : Rat) + 3 * 0 < 1 ∨ 2 ≤ coalesce0 (some 3) ∨ 2 ≤ coalesce0 none)) := by
  exact (risk_rules_iff 0 0
    { id := "u1", pr := some 1, coUsers := some 3, triangles := none,
      degree := none, community := none, suspicious := none, highRisk := none }
    1 rfl rfl).1

end Fraud
